import Mathlib

/-!
# Verification of the tnylpo CP/M-80 emulator core

A shallow embedding, in Lean 4, of the parts of the tnylpo emulator
(`cpu.c`, `os.c`, `util.c`, `main.c`) needed to settle the claims about
its specification.  C machine integers are modelled as `Nat` with explicit
`% 2^w` reductions where the C code masks or stores into a narrower type;
fallible C functions returning `-1` sentinels are modelled with `Option`.
-/

namespace Tnylpo

/-- `#define MEMORY_SIZE (64 * 1024)` from `tnylpo.h` (embedded in
`src/mine/mine.c`): the guest address space is 65 536 bytes. -/
def MEMORY_SIZE : Nat := 65536

/-- `#define MAGIC_ADDRESS (MEMORY_SIZE - (1 + BIOS_VECTOR_COUNT))` with
`BIOS_VECTOR_COUNT 18`, from `tnylpo.h` (embedded in `src/mine/mine.c`):
the magic page is the last 19 bytes of the address space,
`0xFFED`..`0xFFFF`. -/
def MAGIC_ADDRESS : Nat := 0xffed

/-- `enum reason` from `tnylpo.h` (embedded in `src/mine/mine.c`), in
declaration order (the code compares values with `<=`/`>` against
`OK_CTRLC`, relying on this order). -/
inductive Reason where
  | OK_NOTRUN | OK_TERM | OK_CTRLC
  | ERR_BOOT | ERR_BDOSARG | ERR_SELECT | ERR_RODISK | ERR_ROFILE
  | ERR_HOST | ERR_LOGIC | ERR_SIGNAL
  deriving DecidableEq, Repr

/-- Position of a termination reason in the `enum reason` declaration order,
used for the C comparisons `term_reason <= OK_CTRLC` / `> OK_CTRLC`. -/
def Reason.idx : Reason → Nat
  | .OK_NOTRUN => 0 | .OK_TERM => 1 | .OK_CTRLC => 2
  | .ERR_BOOT => 3 | .ERR_BDOSARG => 4 | .ERR_SELECT => 5 | .ERR_RODISK => 6
  | .ERR_ROFILE => 7 | .ERR_HOST => 8 | .ERR_LOGIC => 9 | .ERR_SIGNAL => 10

/-! ## CPU: instruction cycle and the magic-page trap (`cpu.c`)

Only the parts of the interpreter loop that the claims touch are
translated: the prefix-skipping opcode fetch of `cpu_run`, the stack
helper `pop`, and the handlers `inst_ret` (opcode `0xC9`) and `inst_nop`
(opcode `0x00`).  `os_call`'s effect on the OS state is modelled
separately in the `Os` section below; here the machine records the offsets
passed to `os_call`, in order, in the `traps` field, so that theorems can
speak about which trap was dispatched. -/

structure Machine where
  mem : Nat → Nat
  pc : Nat
  sp : Nat
  r : Nat
  traps : List Nat

/-- `fetch` from `cpu.c`: read the byte at PC, increment PC modulo 2^16. -/
def fetch (m : Machine) : Nat × Machine :=
  (m.mem m.pc, { m with pc := (m.pc + 1) % 65536 })

/-- `fetch_m1` from `cpu.c`: `fetch`, plus the R-register rule (low 7 bits
incremented, bit 7 preserved). -/
def fetch_m1 (m : Machine) : Nat × Machine :=
  let t := m.r
  let (opcode, m') := fetch m
  (opcode, { m' with r := (t &&& 0x80) ||| ((t + 1) &&& 0x7f) })

/-- `pop` from `cpu.c`: low byte from `memory[SP]`, high byte from
`memory[SP+1]`, SP incremented twice modulo 2^16.  The `|=` of the two
bytes is written as an addition, valid because memory holds bytes. -/
def pop (m : Machine) : Nat × Machine :=
  let lo := m.mem m.sp
  let sp1 := (m.sp + 1) % 65536
  let hi := m.mem sp1
  (lo + hi * 256, { m with sp := (sp1 + 1) % 65536 })

/-- `do_ret` from `cpu.c`: `reg_pc = pop()`. -/
def do_ret (m : Machine) : Machine :=
  let (w, m') := pop m
  { m' with pc := w }

/-- `inst_ret` from `cpu.c` (the handler of opcode `0xC9`): if the address
the current instruction was fetched from lies in the magic page, call the
OS dispatcher with the offset, then perform the `RET`.  `ci` is
`current_instruction`, latched at the top of `cpu_run`'s loop. -/
def inst_ret (ci : Nat) (m : Machine) : Machine :=
  let m :=
    if ci ≥ MAGIC_ADDRESS then
      { m with traps := m.traps ++ [ci - MAGIC_ADDRESS] }
    else m
  do_ret m

/-- The prefix-handling opcode fetch loop at the top of `cpu_run`:
repeatedly `fetch_m1`, remembering the last `0xDD`/`0xFD` seen, until a
non-prefix opcode arrives.  The C loop is unbounded; `fuel` makes the
model total, returning `none` if no non-prefix byte is found. -/
def fetch_prefix_loop : Nat → Machine → Nat → Option (Nat × Nat × Machine)
  | 0, _, _ => none
  | fuel + 1, m, pfx =>
    let (opcode, m') := fetch_m1 m
    if opcode = 0xdd ∨ opcode = 0xfd then fetch_prefix_loop fuel m' opcode
    else some (opcode, pfx, m')

/-- One iteration of `cpu_run`'s dispatch loop, translated for the opcodes
this development needs: `0xC9` (`inst_ret`) and `0x00` (`inst_nop`, which
does nothing).  Opcodes whose handlers are not translated yield `none`.
Note that the magic-page check happens only inside `inst_ret`: `cpu_run`
itself fetches and dispatches the byte found at PC like any other. -/
def cpu_cycle (m : Machine) : Option Machine :=
  let ci := m.pc
  match fetch_prefix_loop 65536 m 0 with
  | none => none
  | some (opcode, _pfx, m') =>
    if opcode = 0xc9 then some (inst_ret ci m')
    else if opcode = 0x00 then some m'
    else none

/-- One unfolding step of the prefix fetch loop. -/
theorem fetch_prefix_loop_succ (fuel : Nat) (m : Machine) (pfx : Nat) :
    fetch_prefix_loop (fuel + 1) m pfx =
      (let p := fetch_m1 m
       if p.1 = 0xdd ∨ p.1 = 0xfd then fetch_prefix_loop fuel p.2 p.1
       else some (p.1, pfx, p.2)) := rfl

/-- A machine whose magic page has been overwritten by the guest with
`0x00` (`NOP`) bytes, the PC standing at the first magic address. -/
def machNop : Machine :=
  { mem := fun _ => 0x00, pc := 0xffed, sp := 0x100, r := 0, traps := [] }

/-- A machine with the loader-installed `0xC9` (`RET`) byte at the magic
address the PC stands at. -/
def machRet : Machine :=
  { mem := fun a => if a < 0x100 then 0x34 else 0xc9,
    pc := 0xffed, sp := 0x80, r := 0, traps := [] }

/-- C1 (counterexample).  The claim asserts that an instruction cycle
starting at a magic-page PC invokes the trap dispatcher and applies `RET`
semantics "regardless of what byte the guest has stored at that magic
address".  On `machNop`, whose magic page holds `0x00`, the cycle
dispatches the fetched byte as an ordinary `NOP`: no trap is recorded, PC
advances to the next address instead of being popped, and SP is
untouched. -/
theorem magic_trap_unconditional_cex :
    MAGIC_ADDRESS ≤ machNop.pc ∧
    (cpu_cycle machNop).map Machine.traps = some [] ∧
    (cpu_cycle machNop).map Machine.pc = some 0xffee ∧
    (cpu_cycle machNop).map Machine.sp = some machNop.sp :=
  ⟨by decide, rfl, rfl, rfl⟩

/-- C1 (amended).  When the byte fetched at a magic-page PC is `0xC9`
(`RET`) — which the loader guarantees by storing `0xC9` throughout the
magic page — the cycle invokes the trap dispatcher with offset
`PC - 0xFFED` and then applies `RET` semantics: PC is popped from the
stack and SP advances by two (mod 2^16). -/
theorem magic_trap_on_ret_opcode (m : Machine)
    (h1 : MAGIC_ADDRESS ≤ m.pc) (h2 : m.pc < MEMORY_SIZE)
    (h3 : m.mem m.pc = 0xc9) :
    ∃ m', cpu_cycle m = some m' ∧
      m'.traps = m.traps ++ [m.pc - MAGIC_ADDRESS] ∧
      m'.pc = m.mem m.sp + m.mem ((m.sp + 1) % 65536) * 256 ∧
      m'.sp = ((m.sp + 1) % 65536 + 1) % 65536 ∧
      m'.mem = m.mem :=
  by
    rw [cpu_cycle, show (65536 : Nat) = 65535 + 1 from rfl,
      fetch_prefix_loop_succ]
    simp only [fetch_m1, fetch, h3]
    norm_num [inst_ret, do_ret, pop, h1]

/-- C1 (witness for the amended theorem): on `machRet` the cycle records
the trap offset 0 and pops PC = `0x3434` from the stack at `0x80`. -/
theorem magic_trap_on_ret_opcode_witness :
    ∃ m', cpu_cycle machRet = some m' ∧
      m'.traps = machRet.traps ++ [machRet.pc - MAGIC_ADDRESS] ∧
      m'.pc = machRet.mem machRet.sp +
        machRet.mem ((machRet.sp + 1) % 65536) * 256 ∧
      m'.sp = ((machRet.sp + 1) % 65536 + 1) % 65536 ∧
      m'.mem = machRet.mem :=
  magic_trap_on_ret_opcode machRet (by decide) (by decide) (by simp [machRet])

/-! ## Character translation (`util.c`)

A character table (`conf_charset` or `conf_alt_charset`) is a 256-entry
array of optional host wide characters; `cs i = none` models a NULL
entry, `cs i = some w` an entry whose first wide character is `w`.
Host wide characters are modelled as `Int` (C `wchar_t` may be signed). -/

/-- The scan loop of `to_cpm` over the potentially printable range:
`i` runs from `0x20` up to (but not including) `0x100`; `cnt` is the
number of indices still to visit.  DEL (`0x7f`) and NULL entries are
skipped; the first entry equal to `c` yields its index; exhaustion yields
`-1`. -/
def to_cpm_loop (cs : Nat → Option Int) (c : Int) : Nat → Nat → Int
  | 0, _ => -1
  | cnt + 1, i =>
    if i = 0x7f then to_cpm_loop cs c cnt (i + 1)
    else if cs i = none then to_cpm_loop cs c cnt (i + 1)
    else if cs i = some c then (i : Int)
    else to_cpm_loop cs c cnt (i + 1)

/-- `to_cpm` from `util.c`: control characters `0x00..0x1f` and `0x7f`
pass through unaltered; otherwise the active table is scanned for the
code whose entry equals `c`; `-1` means "cannot be converted". -/
def to_cpm (cs : Nat → Option Int) (c : Int) : Int :=
  if (0 ≤ c ∧ c ≤ 0x1f) ∨ c = 0x7f then c
  else to_cpm_loop cs c (0x100 - 0x20) 0x20

/-- `from_cpm` from `util.c`: control characters pass through; a NULL
entry yields the configured "unprintable" substitute or `-1`; otherwise
the entry's wide character. -/
def from_cpm (cs : Nat → Option Int) (unprintable : Option Int)
    (c : Nat) : Int :=
  if c ≤ 0x1f ∨ c = 0x7f then (c : Int)
  else
    match cs c with
    | none =>
      match unprintable with
      | some u => u
      | none => -1
    | some w => w

/-- If the scan loop finds an index, that index is in range, is not DEL,
and its table entry is exactly the searched character. -/
theorem to_cpm_loop_spec (cs : Nat → Option Int) (c : Int) :
    ∀ cnt i, to_cpm_loop cs c cnt i ≠ -1 →
      ∃ j : Nat, to_cpm_loop cs c cnt i = (j : Int) ∧ i ≤ j ∧ j ≠ 0x7f ∧
        cs j = some c := by
  intro cnt
  induction cnt with
  | zero => intro i h; simp [to_cpm_loop] at h
  | succ n ih =>
    intro i h
    rw [to_cpm_loop] at h ⊢
    by_cases h7f : i = 0x7f
    · simp only [h7f, if_true] at h ⊢
      obtain ⟨j, hj, hle, hne, hcs⟩ := ih _ h
      exact ⟨j, hj, by omega, hne, hcs⟩
    · simp only [h7f, if_false] at h ⊢
      by_cases hnone : cs i = none
      · simp only [hnone, if_true] at h ⊢
        obtain ⟨j, hj, hle, hne, hcs'⟩ := ih _ h
        exact ⟨j, hj, by omega, hne, hcs'⟩
      · simp only [hnone, if_false] at h ⊢
        by_cases hw : cs i = some c
        · simp only [hw, if_true]
          exact ⟨i, rfl, le_refl i, h7f, hw⟩
        · simp only [hw, if_false] at h ⊢
          obtain ⟨j, hj, hle, hne, hcs'⟩ := ih _ h
          exact ⟨j, hj, by omega, hne, hcs'⟩

/-- C8.  With the same character table active for both conversions,
`from_cpm` inverts `to_cpm` on every wide character that `to_cpm` can
convert, and control codes `0x00..0x1f` and `0x7f` pass through both
functions unchanged. -/
theorem from_cpm_to_cpm_roundtrip (cs : Nat → Option Int)
    (unprintable : Option Int) :
    (∀ c : Int, to_cpm cs c ≠ -1 →
      from_cpm cs unprintable (to_cpm cs c).toNat = c) ∧
    (∀ b : Nat, b ≤ 0x1f ∨ b = 0x7f →
      to_cpm cs (b : Int) = (b : Int) ∧
      from_cpm cs unprintable b = (b : Int)) := by
  constructor
  · intro c h
    rw [to_cpm] at h ⊢
    by_cases hctl : (0 ≤ c ∧ c ≤ 0x1f) ∨ c = 0x7f
    · rw [if_pos hctl]
      have hc0 : 0 ≤ c := by rcases hctl with ⟨h0, _⟩ | h7 <;> omega
      have hcond : c.toNat ≤ 0x1f ∨ c.toNat = 0x7f := by
        rcases hctl with ⟨h0, h31⟩ | h7
        · exact Or.inl (by omega)
        · exact Or.inr (by omega)
      rw [from_cpm.eq_def, if_pos hcond]
      exact Int.toNat_of_nonneg hc0
    · rw [if_neg hctl] at h ⊢
      obtain ⟨j, hj, hle, hne, hcs⟩ := to_cpm_loop_spec cs c _ _ h
      rw [hj]
      have hj32 : 0x20 ≤ j := hle
      have hcond : ¬ ((j : Int).toNat ≤ 0x1f ∨ (j : Int).toNat = 0x7f) := by
        simp only [Int.toNat_natCast]
        push_neg
        exact ⟨by omega, hne⟩
      rw [from_cpm.eq_def, if_neg hcond]
      simp [hcs]
  · intro b hb
    have hct : ((0 : Int) ≤ (b : Int) ∧ (b : Int) ≤ 0x1f) ∨
        (b : Int) = 0x7f := by
      rcases hb with h | h
      · exact Or.inl ⟨by positivity, by exact_mod_cast h⟩
      · exact Or.inr (by exact_mod_cast congrArg (Nat.cast : Nat → Int) h)
    exact ⟨by rw [to_cpm, if_pos hct], by rw [from_cpm.eq_def, if_pos hb]⟩

/-- A tiny concrete character table: CP/M code `0x41` maps to host
character 65, everything else is NULL. -/
def csA : Nat → Option Int := fun i => if i = 0x41 then some 65 else none

/-- C8 (witness): on the concrete table `csA`, `to_cpm` sends 65 to
`0x41` and `from_cpm` sends it back; control code 3 round-trips
unchanged. -/
theorem from_cpm_to_cpm_roundtrip_witness :
    (to_cpm csA 65 ≠ -1 ∧ from_cpm csA none (to_cpm csA 65).toNat = 65) ∧
    (to_cpm csA (3 : Nat) = ((3 : Nat) : Int) ∧
      from_cpm csA none 3 = ((3 : Nat) : Int)) :=
  ⟨⟨by decide, (from_cpm_to_cpm_roundtrip csA none).1 65 (by decide)⟩,
    (from_cpm_to_cpm_roundtrip csA none).2 3 (by decide)⟩

/-! ## OS emulation state (`os.c`)

The BDOS/FDOS layer of `os.c` is modelled as explicit state passing over
`OsState`.  Host-system effects that live outside the guest state (file
descriptors, `read`/`write`/`lseek`/`open` results, directory contents,
locale-dependent multibyte conversion) enter as explicit oracle
parameters of the operations that perform them. -/

/-- `struct file_data` from `os.c`, reduced to the fields visible to the
claims: the 16-bit registry ID and the `FILE_RODISK`/`FILE_ROFILE`/
`FILE_WRITTEN` flag bits. -/
structure FileData where
  id : Nat
  flags : Nat
  deriving DecidableEq, Repr

/-- `FILE_RODISK` -/
def FILE_RODISK : Nat := 0x1

/-- `FILE_ROFILE` -/
def FILE_ROFILE : Nat := 0x2

/-- `FILE_WRITTEN` -/
def FILE_WRITTEN : Nat := 0x4
/-- `FILE_QUUX`, the xor value for the file ID in the FCB. -/
def FILE_QUUX : Nat := 0xafcb

/-- An entry of `struct file_list` (`os.c`): the survivors of a directory
scan.  `recs` is the file size in 128-byte CP/M records,
`(st_size + 127) / 128`. -/
structure FileListEntry where
  name : List Char
  recs : Nat
  deriving DecidableEq, Repr

/-- The mutable state of the OS emulation: guest memory, the 8080
registers the BDOS layer touches, the termination flag and reason, the
disk-subsystem globals of `os.c`, the open-file registry (`first_file_p`,
kept sorted by ID), the `file_id` generator, and the search list.
`host_writes` counts calls to `write_record`, so that theorems can state
that a call did not touch the host file. -/
structure OsState where
  mem : Nat → Nat
  regA : Nat
  regB : Nat
  regC : Nat
  regD : Nat
  regE : Nat
  regH : Nat
  regL : Nat
  terminate : Bool
  term_reason : Reason
  current_drive : Nat
  current_dma : Nat
  read_only : Nat → Bool
  conf_drives : Nat → Bool
  files : List FileData
  file_id : Nat
  search_list : List FileListEntry
  dont_close : Bool
  host_writes : Nat

/-- `get_de` from `os.c`: `(D << 8) | E`, written as an addition since the
registers hold bytes. -/
def get_de (st : OsState) : Nat := st.regD * 256 + st.regE

/-- Store one byte into guest memory; the `% 256` models the
`unsigned char` truncation of the C memory array. -/
def memWrite (mem : Nat → Nat) (a v : Nat) : Nat → Nat :=
  fun x => if x = a then v % 256 else mem x

/-- `memcpy` into guest memory. -/
def memWriteList (mem : Nat → Nat) (a : Nat) : List Nat → (Nat → Nat)
  | [] => mem
  | v :: vs => memWriteList (memWrite mem a v) (a + 1) vs

/-- `memset` into guest memory. -/
def memFill (mem : Nat → Nat) (a v : Nat) : Nat → (Nat → Nat)
  | 0 => mem
  | n + 1 => memFill (memWrite mem a v) (a + 1) v n

/-- The common epilogue of the BDOS handlers:
`reg_l = reg_a; reg_h = reg_b = 0;`. -/
def fdos_exit (st : OsState) : OsState :=
  { st with regL := st.regA, regH := 0, regB := 0 }

/-- `get_fcb` from `os.c`: the FCB address arrives in DE; if fewer than
`fcb_size` bytes fit between it and the end of memory the call is aborted
fatally with `ERR_BDOSARG`. -/
def get_fcb (st : OsState) (fcb_size : Nat) : OsState × Option Nat :=
  let fcb := get_de st
  if MEMORY_SIZE - fcb < fcb_size then
    ({ st with terminate := true, term_reason := .ERR_BDOSARG }, none)
  else (st, some fcb)

/-- The drive-byte resolution at the top of `get_drive`: byte 0 selects
the current drive, `1..16` select `A:`..`P:`. -/
def resolve_drive (st : OsState) (fcb : Nat) : Nat :=
  if st.mem fcb = 0 then st.current_drive else st.mem fcb - 1

/-- `get_drive` from `os.c`: resolve the FCB drive byte; an out-of-range
or unconfigured drive is fatal with `ERR_SELECT`. -/
def get_drive (st : OsState) (fcb : Nat) : OsState × Option Nat :=
  let drive := resolve_drive st fcb
  if drive > 15 ∨ ¬ st.conf_drives drive then
    ({ st with terminate := true, term_reason := .ERR_SELECT }, none)
  else (st, some drive)

/-- The ID-search walk of `create_filedata`: the registry is sorted by ID
and the walk stops at the first entry with `id ≥` the candidate, so the
candidate is free iff the walk ends there or at a strictly larger ID. -/
def id_free : List FileData → Nat → Bool
  | [], _ => true
  | f :: rest, id => if f.id < id then id_free rest id else decide (id < f.id)

/-- Membership of an ID in the sorted registry, as walked by
`get_filedata_pp`. -/
def id_in_list : List FileData → Nat → Bool
  | [], _ => false
  | f :: rest, id => if f.id < id then id_in_list rest id else decide (f.id = id)

/-- Splice a new entry into the sorted registry at the position found by
the `create_filedata` walk. -/
def insert_filedata : List FileData → FileData → List FileData
  | [], f => [f]
  | g :: rest, f =>
    if g.id < f.id then g :: insert_filedata rest f else f :: g :: rest

/-- Splice an entry out of the sorted registry (`*fdpp = fdp->next_p` in
`bdos_close_file`). -/
def remove_filedata : List FileData → Nat → List FileData
  | [], _ => []
  | f :: rest, id =>
    if f.id < id then f :: remove_filedata rest id
    else if f.id = id then rest else f :: rest

/-- Flags of the registry entry with the given ID (0 if absent). -/
def lookup_flags : List FileData → Nat → Nat
  | [], _ => 0
  | f :: rest, id => if f.id = id then f.flags else lookup_flags rest id

/-- Overwrite the flags of the registry entry with the given ID
(`fdp->flags = ...`). -/
def set_file_flags (files : List FileData) (id flags : Nat) : List FileData :=
  files.map fun f => if f.id = id then { f with flags := flags } else f

/-- `fdp->flags |= FILE_WRITTEN` on the entry with the given ID. -/
def mark_written (files : List FileData) (id : Nat) : List FileData :=
  files.map fun f =>
    if f.id = id then { f with flags := f.flags ||| FILE_WRITTEN } else f

/-- `fdp->flags &= ~FILE_WRITTEN`: clear bit 2 (subtracting `flags &&& 4`
clears exactly that bit). -/
def clear_written (files : List FileData) (id : Nat) : List FileData :=
  files.map fun f =>
    if f.id = id then { f with flags := f.flags - (f.flags &&& FILE_WRITTEN) }
    else f

/-- The advance of the static `file_id` generator:
`file_id++; file_id &= 0xffff; if (!file_id) file_id++;`. -/
def next_fid (fid : Nat) : Nat :=
  let f := (fid + 1) % 65536
  if f = 0 then 1 else f

/-- Result of the candidate-ID loop of `create_filedata`. -/
inductive CfdRes where
  | despair (fid : Nat)
  | found (id fid : Nat)
  deriving DecidableEq, Repr

/-- The candidate loop of `create_filedata`: try the current candidate;
if taken, draw the next value from the generator, despairing when the
generator comes back around to the starting candidate.  The `fuel = 0`
case is merged with despair; with fuel 65536 it is unreachable, because
the generator cycles through the 65535 possible IDs. -/
def cfd_loop (files : List FileData) (start_id : Nat) :
    Nat → Nat → Nat → CfdRes
  | 0, _, fid => .despair fid
  | fuel + 1, id, fid =>
    if id_free files id then .found id fid
    else
      let id2 := fid
      let fid2 := next_fid fid
      if id2 = start_id then .despair fid2
      else cfd_loop files start_id fuel id2 fid2

/-- `create_filedata` from `os.c`: allocate a fresh registry ID, enter a
zero-flag registry entry under it, and stamp the ID and `ID xor 0xAFCB`
into FCB bytes 16..19 (little-endian).  On despair (all 65535 IDs live)
the emulation is terminated with `ERR_LOGIC` and nothing is stamped.
Returns the new ID on success. -/
def create_filedata (st : OsState) (fcb : Nat) : OsState × Option Nat :=
  let start_id := st.file_id
  match cfd_loop st.files start_id 65536 start_id (next_fid start_id) with
  | .despair fid =>
    ({ st with
        file_id := fid, terminate := true, term_reason := .ERR_LOGIC }, none)
  | .found id fid =>
    let chk := id ^^^ FILE_QUUX
    let mem := memWrite st.mem (fcb + 16) (id % 256)
    let mem := memWrite mem (fcb + 17) (id / 256 % 256)
    let mem := memWrite mem (fcb + 18) (chk % 256)
    let mem := memWrite mem (fcb + 19) (chk / 256 % 256)
    ({ st with
        file_id := fid, mem := mem,
        files := insert_filedata st.files ⟨id, 0⟩ }, some id)

/-- `get_filedata_pp` from `os.c`: read the ID from FCB bytes 16..17 and
the check word from bytes 18..19; if their xor is not `0xAFCB`, or the ID
is not a live registry entry, terminate fatally with `ERR_LOGIC`.
Returns the ID of the entry found.  (The C `<<`/`|` byte assembly is
written as `* 256 + ` since memory holds bytes.) -/
def get_filedata_pp (st : OsState) (fcb : Nat) : OsState × Option Nat :=
  let id := st.mem (fcb + 17) * 256 + st.mem (fcb + 16)
  let t := st.mem (fcb + 19) * 256 + st.mem (fcb + 18)
  if id ^^^ t ≠ FILE_QUUX then
    ({ st with terminate := true, term_reason := .ERR_LOGIC }, none)
  else if ¬ id_in_list st.files id then
    ({ st with terminate := true, term_reason := .ERR_LOGIC }, none)
  else (st, some id)

/-- `file_fcb` from `os.c` (the success value is the registry ID). -/
def file_fcb (st : OsState) (fcb : Nat) : OsState × Option Nat :=
  get_filedata_pp st fcb

/-! ### Sequential and random record I/O (`os.c`) -/

/-- `get_offset` from `os.c`: decode the sequential offset from the FCB
triple (S2, EX, CR); the legal range is 0..65536, anything else is the
`-1` sentinel, modelled as `none`.  (The C `<<`/`|` packing is written
as `* 32`, `* 128` and `+` since the components were just range-checked.) -/
def get_offset (mem : Nat → Nat) (fcb : Nat) : Option Nat :=
  let s2 := mem (fcb + 14)
  let ex := mem (fcb + 12)
  let cr := mem (fcb + 32)
  if cr > 127 ∨ ex > 31 ∨ s2 > 16 ∨ (s2 = 16 ∧ (cr ≠ 0 ∨ ex ≠ 0)) then none
  else some ((s2 * 32 + ex) * 128 + cr)

/-- `set_offset` from `os.c`: store an offset in 0..65536 back into the
FCB triple: `CR = offset & 0x7f`, `EX = (offset >> 7) & 0x1f`,
`S2 = offset >> 12` (the store truncates to a byte). -/
def set_offset (mem : Nat → Nat) (fcb offset : Nat) : Nat → Nat :=
  let mem := memWrite mem (fcb + 32) (offset % 128)
  let mem := memWrite mem (fcb + 12) (offset / 128 % 32)
  memWrite mem (fcb + 14) (offset / 4096)

/-- `get_random` from `os.c`: decode the 24-bit random record field from
FCB bytes 33..35 (little-endian); the legal range is 0..65536. -/
def get_random (mem : Nat → Nat) (fcb : Nat) : Option Nat :=
  let r0 := mem (fcb + 33)
  let r1 := mem (fcb + 34)
  let r2 := mem (fcb + 35)
  if r2 > 1 ∨ (r2 = 1 ∧ (r0 ≠ 0 ∨ r1 ≠ 0)) then none
  else some ((r2 * 256 + r1) * 256 + r0)

/-- `seek` from `os.c`: position the host file at `offset * 128`.  The
`lseek` outcome is an oracle; failure is fatal with `ERR_HOST`. -/
def seek (st : OsState) (seekOk : Bool) : OsState × Int :=
  if seekOk then (st, 0)
  else ({ st with terminate := true, term_reason := .ERR_HOST }, -1)

/-- `read_record` from `os.c`: transfer up to 128 bytes from the host
file into the current DMA buffer; if at least one byte was transferred
(`n < 128` in the C loop) an incomplete tail is padded with `0x1A`, and
the call returns `-1` exactly when nothing at all was read (EOF at a
record boundary, or an immediate read error).  `data` is the byte
sequence the host `read` loop delivers before stopping; `readErr` tells
whether it stopped with an error, which is fatal with `ERR_HOST`. -/
def read_record (st : OsState) (data : List Nat) (readErr : Bool) :
    OsState × Int :=
  let k := min data.length 128
  let st := { st with mem := memWriteList st.mem st.current_dma (data.take 128) }
  let st :=
    if readErr then { st with terminate := true, term_reason := .ERR_HOST }
    else st
  let st :=
    if 0 < k ∧ k < 128 then
      { st with mem := memFill st.mem (st.current_dma + k) 0x1a (128 - k) }
    else st
  (st, if k = 0 then -1 else 0)

/-- `write_record` from `os.c`: push the 128 DMA bytes to the host file
(`host_writes` counts these calls), set `FILE_WRITTEN` on the registry
entry, and return `-1` on a host write error, which is fatal with
`ERR_HOST`. -/
def write_record (st : OsState) (id : Nat) (writeErr : Bool) :
    OsState × Int :=
  let st := { st with host_writes := st.host_writes + 1 }
  let st :=
    if writeErr then { st with terminate := true, term_reason := .ERR_HOST }
    else st
  let st := { st with files := mark_written st.files id }
  (st, if writeErr then -1 else 0)

/-- `check_writeable` from `os.c`: writing through an FCB whose file was
opened on a read-only disk or as a read-only file is fatal
(`ERR_RODISK` / `ERR_ROFILE`). -/
def check_writeable (st : OsState) (id : Nat) : OsState × Int :=
  let flags := lookup_flags st.files id
  if flags &&& FILE_RODISK ≠ 0 then
    ({ st with terminate := true, term_reason := .ERR_RODISK }, -1)
  else if flags &&& FILE_ROFILE ≠ 0 then
    ({ st with terminate := true, term_reason := .ERR_ROFILE }, -1)
  else (st, 0)

/-- The host-side oracles consumed by one record-I/O call. -/
structure HostIO where
  seekOk : Bool
  readData : List Nat
  readErr : Bool
  writeErr : Bool

/-- `bdos_read_sequential` (BDOS 20) from `os.c`. -/
def bdos_read_sequential (st : OsState) (io : HostIO) : OsState :=
  let st := { st with regA := 0x01 }
  match get_fcb st 33 with
  | (st, none) => fdos_exit st
  | (st, some fcb) =>
    match file_fcb st fcb with
    | (st, none) => fdos_exit st
    | (st, some _id) =>
      match get_offset st.mem fcb with
      | none => fdos_exit { st with regA := 0x06 }
      | some offset =>
        if offset = 65536 then fdos_exit { st with regA := 0x06 }
        else
          match seek st io.seekOk with
          | (st, sr) =>
            if sr = -1 then fdos_exit st
            else
              match read_record st io.readData io.readErr with
              | (st, rr) =>
                if rr = -1 then fdos_exit st
                else
                  let st := { st with mem := set_offset st.mem fcb (offset + 1) }
                  fdos_exit { st with regA := 0x00 }

/-- `bdos_write_sequential` (BDOS 21) from `os.c`. -/
def bdos_write_sequential (st : OsState) (io : HostIO) : OsState :=
  let st := { st with regA := 0x02 }
  match get_fcb st 33 with
  | (st, none) => fdos_exit st
  | (st, some fcb) =>
    match file_fcb st fcb with
    | (st, none) => fdos_exit st
    | (st, some id) =>
      match check_writeable st id with
      | (st, cw) =>
        if cw = -1 then fdos_exit st
        else
          match get_offset st.mem fcb with
          | none => fdos_exit { st with regA := 0x06 }
          | some offset =>
            if offset = 65536 then fdos_exit { st with regA := 0x06 }
            else
              match seek st io.seekOk with
              | (st, sr) =>
                if sr = -1 then fdos_exit st
                else
                  match write_record st id io.writeErr with
                  | (st, wr) =>
                    if wr = -1 then fdos_exit st
                    else
                      let st :=
                        { st with mem := set_offset st.mem fcb (offset + 1) }
                      fdos_exit { st with regA := 0x00 }

/-- `bdos_read_random` (BDOS 33) from `os.c`: like sequential read but
driven by the 24-bit random field, which on success is copied (not
incremented) into the sequential triple. -/
def bdos_read_random (st : OsState) (io : HostIO) : OsState :=
  let st := { st with regA := 0x01 }
  match get_fcb st 36 with
  | (st, none) => fdos_exit st
  | (st, some fcb) =>
    match file_fcb st fcb with
    | (st, none) => fdos_exit st
    | (st, some _id) =>
      match get_random st.mem fcb with
      | none => fdos_exit { st with regA := 0x06 }
      | some offset =>
        if offset = 65536 then fdos_exit { st with regA := 0x06 }
        else
          match seek st io.seekOk with
          | (st, sr) =>
            if sr = -1 then fdos_exit st
            else
              match read_record st io.readData io.readErr with
              | (st, rr) =>
                if rr = -1 then fdos_exit st
                else
                  let st := { st with mem := set_offset st.mem fcb offset }
                  fdos_exit { st with regA := 0x00 }

/-- `write_random` from `os.c`: the shared body of BDOS 34 and BDOS 40
(identical but for their log label). -/
def write_random (st : OsState) (io : HostIO) : OsState :=
  let st := { st with regA := 0x05 }
  match get_fcb st 36 with
  | (st, none) => st
  | (st, some fcb) =>
    match file_fcb st fcb with
    | (st, none) => st
    | (st, some id) =>
      match check_writeable st id with
      | (st, cw) =>
        if cw = -1 then st
        else
          match get_random st.mem fcb with
          | none => { st with regA := 0x06 }
          | some offset =>
            if offset = 65536 then { st with regA := 0x06 }
            else
              match seek st io.seekOk with
              | (st, sr) =>
                if sr = -1 then st
                else
                  match write_record st id io.writeErr with
                  | (st, wr) =>
                    if wr = -1 then st
                    else
                      let st :=
                        { st with mem := set_offset st.mem fcb offset }
                      { st with regA := 0x00 }

/-- `bdos_write_random` (BDOS 34) from `os.c`. -/
def bdos_write_random (st : OsState) (io : HostIO) : OsState :=
  fdos_exit (write_random st io)

/-- `bdos_write_random_with_zero_fill` (BDOS 40) from `os.c`. -/
def bdos_write_random_with_zero_fill (st : OsState) (io : HostIO) : OsState :=
  fdos_exit (write_random st io)

/-- `bdos_close_file` (BDOS 16) from `os.c`: verify the FCB, and either
just clear `FILE_WRITTEN` (when `dont_close` is configured) or remove the
registry entry, clear FCB bytes 16..19 and close the host file
(`closeOk` is the host `close` outcome; failure is fatal with
`ERR_HOST`). -/
def bdos_close_file (st : OsState) (closeOk : Bool) : OsState :=
  let st := { st with regA := 0xff }
  match get_fcb st 33 with
  | (st, none) => fdos_exit st
  | (st, some fcb) =>
    match get_filedata_pp st fcb with
    | (st, none) => fdos_exit st
    | (st, some id) =>
      if st.dont_close then
        fdos_exit { st with files := clear_written st.files id, regA := 0x00 }
      else
        let st := { st with files := remove_filedata st.files id }
        let mem := memWrite st.mem (fcb + 16) 0
        let mem := memWrite mem (fcb + 17) 0
        let mem := memWrite mem (fcb + 18) 0
        let mem := memWrite mem (fcb + 19) 0
        let st := { st with mem := mem }
        if closeOk then fdos_exit { st with regA := 0x00 }
        else
          fdos_exit
            { st with terminate := true, term_reason := .ERR_HOST }

/-! ### Directory search, open/make/delete (`os.c`, `util.c`)

Host file names are modelled as `List Char`.  The locale-dependent
multibyte conversions (`get_unix_name`, `setup_fcb`) are supplied as
oracles: `uname` stands for the result of `get_unix_name` on the FCB
(`none` = illegal name), `encode` for the 11 CP/M name bytes `setup_fcb`
derives from a host name. -/

/-- The valid filename characters of `is_nice_filename`. -/
def valid_fn_char (c : Char) : Bool :=
  ("#$-0123456789@abcdefghijklmnopqrstuvwxyz".toList).contains c

/-- `strchr(fn, '.')`: split a name at its first dot, `none` when there
is no dot. -/
def split_dot : List Char → Option (List Char × List Char)
  | [] => none
  | c :: rest =>
    if c = '.' then some ([], rest)
    else
      match split_dot rest with
      | none => none
      | some (n, e) => some (c :: n, e)

/-- `is_nice_filename` from `util.c`/`os.c`: base name 1..8 characters,
optional extension 1..3 characters, all characters from the valid set. -/
def is_nice_filename (fn : List Char) : Bool :=
  match split_dot fn with
  | none =>
    decide (1 ≤ fn.length) && decide (fn.length ≤ 8) && fn.all valid_fn_char
  | some (n, e) =>
    decide (1 ≤ n.length) && decide (n.length ≤ 8) &&
    decide (1 ≤ e.length) && decide (e.length ≤ 3) &&
    n.all valid_fn_char && e.all valid_fn_char

/-- `prepare_name` from `os.c`: lay the name out in an 11-character
blank-padded buffer, 8 characters of name then 3 of extension, no dot. -/
def prepare_name (fn : List Char) : List Char :=
  match split_dot fn with
  | none => (fn ++ List.replicate 11 ' ').take 11
  | some (n, e) =>
    (n ++ List.replicate 8 ' ').take 8 ++ (e ++ List.replicate 3 ' ').take 3

/-- `match_name` from `os.c`: position-wise comparison of two prepared
11-character buffers, `?` in the pattern matching anything. -/
def match_name (name pattern : List Char) : Bool :=
  (List.zip name pattern).all fun p => p.2 = '?' || p.2 = p.1

/-- One host directory entry as `get_filelist` sees it: the name
delivered by `readdir`, whether `lstat` succeeded, whether the file is
regular, and its size in bytes. -/
structure DirEntry where
  name : List Char
  statOk : Bool
  isReg : Bool
  size : Nat
  deriving DecidableEq, Repr

/-- The filter applied by `get_filelist` to each directory entry, in the
order of the C checks: CP/M-compatible ("nice") name, `?`-wildcard match
against the pattern, `lstat` success, regular file, at most 8 MiB. -/
def survives (pattern : List Char) (e : DirEntry) : Bool :=
  is_nice_filename e.name &&
  match_name (prepare_name e.name) (prepare_name pattern) &&
  e.statOk && e.isReg && decide (e.size ≤ 8 * 1024 * 1024)

/-- `get_filelist` from `os.c`: scan the directory in `readdir` order and
collect the surviving entries.  Each survivor is *prepended*
(`tp->next_p = flp; flp = tp;`), so the resulting list is in reverse
directory order.  Sizes are converted to 128-byte records, rounded up. -/
def get_filelist (dir : List DirEntry) (pattern : List Char) :
    List FileListEntry :=
  dir.foldl
    (fun acc e =>
      if survives pattern e then ⟨e.name, (e.size + 127) / 128⟩ :: acc
      else acc)
    []

/-- `return_direntry` from `os.c`: pop the head of the search list,
synthesize a directory entry into the DMA buffer (drive byte 0, 11 name
bytes, `0xE5` filler in bytes 32..127) and return directory code 0; an
empty list returns `0xFF`. -/
def return_direntry (encode : List Char → List Nat) (st : OsState) :
    OsState :=
  match st.search_list with
  | [] => { st with regA := 0xff }
  | e :: rest =>
    let mem := memFill st.mem st.current_dma 0 32
    let mem := memFill mem (st.current_dma + 32) 0xe5 96
    let mem := memWriteList mem (st.current_dma + 1) ((encode e.name).take 11)
    { st with mem := mem, search_list := rest, regA := 0x00 }

/-- The drive resolution of `bdos_search_for_first`: the `?` wildcard
drive byte (`0x3f`) selects the current drive without further checks;
any other byte goes through `get_drive`. -/
def search_drive (st : OsState) (fcb : Nat) : OsState × Option Nat :=
  if st.mem fcb = 0x3f then (st, some st.current_drive)
  else get_drive st fcb

/-- `bdos_search_for_first` (BDOS 17) from `os.c`: resolve the drive,
replace the search list with the survivors of a fresh directory scan,
and deliver its first entry. -/
def bdos_search_for_first (st : OsState) (dirOf : Nat → List DirEntry)
    (uname : Option (List Char)) (encode : List Char → List Nat) : OsState :=
  let st := { st with regA := 0xff }
  match get_fcb st 32 with
  | (st, none) => fdos_exit st
  | (st, some fcb) =>
    match search_drive st fcb with
    | (st, none) => fdos_exit st
    | (st, some drive) =>
      match uname with
      | none => fdos_exit st
      | some pattern =>
        let st :=
          { st with search_list := get_filelist (dirOf drive) pattern }
        fdos_exit (return_direntry encode st)

/-- `bdos_search_for_next` (BDOS 18) from `os.c`. -/
def bdos_search_for_next (st : OsState) (encode : List Char → List Nat) :
    OsState :=
  fdos_exit (return_direntry encode st)

/-- `bdos_delete_file` (BDOS 19) from `os.c`: collect the matches first;
no match returns `0xFF`; with at least one match, a read-only drive is
fatal with `ERR_RODISK`; an `unlink` failure is fatal with `ERR_ROFILE`;
otherwise all matches are unlinked and directory code 0 is returned.
`unlinkFails` is the host `unlink` outcome per name. -/
def bdos_delete_file (st : OsState) (dirOf : Nat → List DirEntry)
    (uname : Option (List Char)) (unlinkFails : List Char → Bool) : OsState :=
  let st := { st with regA := 0xff }
  match get_fcb st 32 with
  | (st, none) => fdos_exit st
  | (st, some fcb) =>
    match get_drive st fcb with
    | (st, none) => fdos_exit st
    | (st, some drive) =>
      match uname with
      | none => fdos_exit st
      | some pattern =>
        let flp := get_filelist (dirOf drive) pattern
        if flp = [] then fdos_exit st
        else if st.read_only drive then
          fdos_exit { st with terminate := true, term_reason := .ERR_RODISK }
        else if flp.any (fun e => unlinkFails e.name) then
          fdos_exit { st with terminate := true, term_reason := .ERR_ROFILE }
        else fdos_exit { st with regA := 0x00 }

/-- Outcome of the host `open` of an existing file in `bdos_open_file`. -/
inductive OpenOutcome where
  /-- the first `open` succeeded -/
  | ok
  /-- `O_RDWR` failed with `EACCES`, the `O_RDONLY` retry succeeded -/
  | eaccesRoOk
  /-- `O_RDWR` failed with `EACCES`, the `O_RDONLY` retry failed too -/
  | eaccesRoFail
  /-- `open` failed with some other `errno` -/
  | err
  deriving DecidableEq, Repr

/-- `bdos_open_file` (BDOS 15) from `os.c`: validate the FCB (extent
≤ 31, S2 cleared), resolve the drive, scan the directory for the first
match large enough for the requested extent, open it honouring the
read-only disk flag and the `EACCES` fall-back, rewrite an ambiguous
FCB name from the actual match, and stamp a fresh registry ID into the
FCB via `create_filedata`. -/
def bdos_open_file (st : OsState) (dirOf : Nat → List DirEntry)
    (uname : Option (List Char)) (openOut : OpenOutcome)
    (encode : List Char → List Nat) : OsState :=
  let st := { st with regA := 0xff }
  match get_fcb st 33 with
  | (st, none) => fdos_exit st
  | (st, some fcb) =>
    let extent := st.mem (fcb + 12)
    if extent > 31 then fdos_exit st
    else
      let st := { st with mem := memWrite st.mem (fcb + 14) 0x00 }
      match get_drive st fcb with
      | (st, none) => fdos_exit st
      | (st, some drive) =>
        let flags := if st.read_only drive then FILE_RODISK else 0
        match uname with
        | none => fdos_exit st
        | some pattern =>
          let ambigous := pattern.contains '?'
          let flp := get_filelist (dirOf drive) pattern
          match flp.find? (fun tp => decide (tp.recs ≥ extent * 128)) with
          | none => fdos_exit st
          | some tp =>
            -- the host open: on a read-only disk `O_RDONLY` is tried
            -- once; otherwise `O_RDWR` with the `EACCES` fall-back
            let opened : Option Nat :=
              if flags ≠ 0 then
                match openOut with
                | .ok => some flags
                | _ => none
              else
                match openOut with
                | .ok => some flags
                | .eaccesRoOk => some (flags ||| FILE_ROFILE)
                | .eaccesRoFail => none
                | .err => none
            match opened with
            | none =>
              fdos_exit
                { st with terminate := true, term_reason := .ERR_HOST }
            | some flags =>
              let st :=
                if ambigous then
                  { st with
                      mem := memWriteList st.mem (fcb + 1)
                        ((encode tp.name).take 11) }
                else st
              match create_filedata st fcb with
              | (st, none) => fdos_exit st
              | (st, some id) =>
                let st := { st with files := set_file_flags st.files id flags }
                fdos_exit { st with regA := 0x00 }

/-- `bdos_make_file` (BDOS 22) from `os.c`: create-exclusive: extent
≤ 31, S2 cleared, the drive must be configured and writable, the name
unambiguous; `createOk` is the host `open(O_CREAT|O_EXCL)` outcome,
whose failure is fatal with `ERR_HOST`.  (On `create_filedata` despair
the C code would dereference a NULL pointer; that path needs 65535 live
files and is modelled as returning with the termination already
requested by `create_filedata`.) -/
def bdos_make_file (st : OsState) (uname : Option (List Char))
    (createOk : Bool) : OsState :=
  let st := { st with regA := 0xff }
  match get_fcb st 33 with
  | (st, none) => fdos_exit st
  | (st, some fcb) =>
    if st.mem (fcb + 12) > 31 then fdos_exit st
    else
      let st := { st with mem := memWrite st.mem (fcb + 14) 0x00 }
      match get_drive st fcb with
      | (st, none) => fdos_exit st
      | (st, some drive) =>
        if st.read_only drive then
          fdos_exit { st with terminate := true, term_reason := .ERR_RODISK }
        else
          match uname with
          | none => fdos_exit st
          | some name =>
            if name.contains '?' then fdos_exit st
            else if ¬ createOk then
              fdos_exit
                { st with terminate := true, term_reason := .ERR_HOST }
            else
              match create_filedata st fcb with
              | (st, none) => fdos_exit st
              | (st, some id) =>
                let st := { st with files := set_file_flags st.files id 0 }
                fdos_exit { st with regA := 0x00 }

/-! ### Trap-handler register conventions (`os.c`) -/

/-- `bdos_return_version_number` (BDOS 12) from `os.c`:
`reg_l = reg_a = 0x22; reg_h = reg_b = 0;`. -/
def bdos_return_version_number (st : OsState) : OsState :=
  { st with regL := 0x22, regA := 0x22, regH := 0, regB := 0 }

/-- `magic_conin` (BIOS CONIN) from `os.c`: `reg_a = console_in();` and
nothing else — L, H and B are left as the guest had them.  `c` is the
byte delivered by the console. -/
def magic_conin (st : OsState) (c : Nat) : OsState :=
  { st with regA := c % 256 }

/-- `magic_sectran` (BIOS SECTRAN) from `os.c`:
`reg_l = reg_c; reg_h = reg_b;` — A is left as the guest had it. -/
def magic_sectran (st : OsState) : OsState :=
  { st with regL := st.regC, regH := st.regB }

/-! ### Process exit code (`os.c` `os_exit`, `cpu.c` `cpu_exit`,
`main.c` `main`) -/

/-- The return code of `os_exit`: `-1` iff the guest set a program
return code of `0xFF00` or above (BDOS 108). -/
def os_exit_rc (program_return_code : Nat) : Int :=
  if program_return_code ≥ 0xff00 then -1 else 0

/-- The return code of `cpu_exit`: starts from `os_exit`'s; on regular
termination (`term_reason <= OK_CTRLC`) a failing optional memory save
forces `-1`; any other termination reason forces `-1`. -/
def cpu_exit_rc (reason : Reason) (program_return_code : Nat)
    (save_configured save_fails : Bool) : Int :=
  let rc := os_exit_rc program_return_code
  if reason.idx ≤ Reason.OK_CTRLC.idx then
    if save_configured then (if save_fails then -1 else rc) else rc
  else -1

/-- The process exit code computed by `main` (`main.c`).  The pre-run
steps can divert to `premature_exit`: a `setlocale` failure, refusing to
run as root, and a log-file open failure set `rc = -1`; the `-h` usage
path and a `get_config` failure jump with `rc` still `0`; a `cpu_init`
failure jumps with its nonzero return code.  A `console_init` failure
skips `cpu_run` and `console_exit` but not the rest.  After the run the
cleanup calls (`console_exit`, `cpu_exit`, `finalize_chario`) each force
`rc = -1` on failure; at `premature_exit`, if a log file is open, a
failing `fclose` forces `rc = -1`; finally
`exit(rc ? EXIT_FAILURE : EXIT_SUCCESS)` maps any nonzero `rc` to host
exit code 1. -/
def main_exit_code (reason : Reason) (program_return_code : Nat)
    (setlocale_fails help_only euid_root config_fails log_configured
      log_open_fails cpu_init_fails console_init_fails
      save_configured save_fails console_exit_fails chario_fails
      log_close_fails : Bool) : Nat :=
  let exitCode : Int → Bool → Nat := fun rc log_open =>
    let rc := if log_open && log_close_fails then (-1 : Int) else rc
    if rc ≠ 0 then 1 else 0
  if setlocale_fails then exitCode (-1) false
  else if help_only then exitCode 0 false
  else if euid_root then exitCode (-1) false
  else if config_fails then exitCode 0 false
  else if log_configured && log_open_fails then exitCode (-1) false
  else if cpu_init_fails then exitCode (-1) log_configured
  else
    let rc : Int :=
      if console_init_fails then -1
      else if console_exit_fails then -1 else 0
    let rc :=
      if cpu_exit_rc reason program_return_code save_configured save_fails ≠ 0
      then -1 else rc
    let rc := if chario_fails then -1 else rc
    exitCode rc log_configured

/-! ### The FCB ID protocol (claim C2) -/

/-- The tamper-check equation stamped into FCB bytes 16..19: the ID word
xor the check word must be `0xAFCB`.  (The words are assembled high byte
first, as `get_filedata_pp` does; the value equals the little-endian
reading of the claim.) -/
def fcb_check (mem : Nat → Nat) (fcb : Nat) : Prop :=
  (mem (fcb + 17) * 256 + mem (fcb + 16)) ^^^
    (mem (fcb + 19) * 256 + mem (fcb + 18)) = FILE_QUUX

instance (mem : Nat → Nat) (fcb : Nat) : Decidable (fcb_check mem fcb) := by
  unfold fcb_check; infer_instance

theorem get_fcb_eq_ok (st : OsState) (n : Nat)
    (h : get_de st + n ≤ MEMORY_SIZE) :
    get_fcb st n = (st, some (get_de st)) := by
  unfold get_fcb MEMORY_SIZE at *
  rw [if_neg (by omega)]

theorem get_fcb_eq_fail (st : OsState) (n : Nat)
    (h : MEMORY_SIZE - get_de st < n) :
    get_fcb st n =
      ({ st with terminate := true, term_reason := .ERR_BDOSARG }, none) := by
  unfold get_fcb
  rw [if_pos h]

theorem get_drive_eq_ok (st : OsState) (fcb : Nat)
    (h1 : resolve_drive st fcb ≤ 15)
    (h2 : st.conf_drives (resolve_drive st fcb) = true) :
    get_drive st fcb = (st, some (resolve_drive st fcb)) := by
  unfold get_drive
  rw [if_neg (by simp [h2]; omega)]

theorem get_drive_eq_fail (st : OsState) (fcb : Nat)
    (h : resolve_drive st fcb > 15 ∨
      ¬ st.conf_drives (resolve_drive st fcb)) :
    get_drive st fcb =
      ({ st with terminate := true, term_reason := .ERR_SELECT }, none) := by
  unfold get_drive
  rw [if_pos h]

theorem get_filedata_pp_eq_fail (st : OsState) (fcb : Nat)
    (h : ¬ fcb_check st.mem fcb) :
    get_filedata_pp st fcb =
      ({ st with terminate := true, term_reason := .ERR_LOGIC }, none) := by
  have h' : st.mem (fcb + 17) * 256 + st.mem (fcb + 16) ^^^
      (st.mem (fcb + 19) * 256 + st.mem (fcb + 18)) ≠ FILE_QUUX := h
  unfold get_filedata_pp
  dsimp only
  rw [if_pos h']

theorem get_filedata_pp_eq_stale (st : OsState) (fcb : Nat)
    (h1 : fcb_check st.mem fcb)
    (h2 : id_in_list st.files
      (st.mem (fcb + 17) * 256 + st.mem (fcb + 16)) = false) :
    get_filedata_pp st fcb =
      ({ st with terminate := true, term_reason := .ERR_LOGIC }, none) := by
  have h1' : ¬ (st.mem (fcb + 17) * 256 + st.mem (fcb + 16) ^^^
      (st.mem (fcb + 19) * 256 + st.mem (fcb + 18)) ≠ FILE_QUUX) :=
    not_not_intro h1
  unfold get_filedata_pp
  dsimp only
  rw [if_neg h1', if_pos (by simp [h2])]

theorem get_filedata_pp_eq_ok (st : OsState) (fcb : Nat)
    (h1 : fcb_check st.mem fcb)
    (h2 : id_in_list st.files
      (st.mem (fcb + 17) * 256 + st.mem (fcb + 16)) = true) :
    get_filedata_pp st fcb =
      (st, some (st.mem (fcb + 17) * 256 + st.mem (fcb + 16))) := by
  have h1' : ¬ (st.mem (fcb + 17) * 256 + st.mem (fcb + 16) ^^^
      (st.mem (fcb + 19) * 256 + st.mem (fcb + 18)) ≠ FILE_QUUX) :=
    not_not_intro h1
  unfold get_filedata_pp
  dsimp only
  rw [if_neg h1', if_neg (by simp [h2])]

theorem next_fid_bounds (fid : Nat) :
    1 ≤ next_fid fid ∧ next_fid fid ≤ 65535 := by
  have h := Nat.mod_lt (fid + 1) (show 0 < 65536 by omega)
  unfold next_fid
  dsimp only
  split <;> omega

theorem cfd_loop_found_bounds (files : List FileData) (start_id : Nat) :
    ∀ fuel id fid, 1 ≤ id → id ≤ 65535 → 1 ≤ fid → fid ≤ 65535 →
      ∀ j f, cfd_loop files start_id fuel id fid = .found j f →
        1 ≤ j ∧ j ≤ 65535 := by
  intro fuel
  induction fuel with
  | zero => intro id fid h1 h2 h3 h4 j f h; simp [cfd_loop] at h
  | succ n ih =>
    intro id fid h1 h2 h3 h4 j f h
    rw [cfd_loop] at h
    by_cases hfree : id_free files id
    · simp only [hfree, if_true] at h
      cases h
      exact ⟨h1, h2⟩
    · simp only [hfree, if_false] at h
      by_cases hcyc : fid = start_id
      · simp [hcyc] at h
      · simp only [hcyc, if_false] at h
        have hb := next_fid_bounds fid
        exact ih fid (next_fid fid) h3 h4 hb.1 hb.2 j f h

theorem create_filedata_stamps (st : OsState) (fcb : Nat)
    (h1 : 1 ≤ st.file_id) (h2 : st.file_id ≤ 65535) :
    ∀ st' id, create_filedata st fcb = (st', some id) →
      fcb_check st'.mem fcb := by
  intro st' id h
  unfold create_filedata at h
  dsimp only at h
  cases hloop : cfd_loop st.files st.file_id 65536 st.file_id
      (next_fid st.file_id) with
  | despair fid => rw [hloop] at h; simp at h
  | found j f =>
    rw [hloop] at h
    simp only [Prod.mk.injEq, Option.some.injEq] at h
    obtain ⟨hst, hid⟩ := h
    subst hst hid
    have hnb := next_fid_bounds st.file_id
    have hjb : 1 ≤ j ∧ j ≤ 65535 :=
      cfd_loop_found_bounds st.files st.file_id 65536 st.file_id
        (next_fid st.file_id) h1 h2 hnb.1 hnb.2 j f hloop
    have hj16 : j < 2 ^ 16 := by omega
    have hq16 : FILE_QUUX < 2 ^ 16 := by unfold FILE_QUUX; omega
    have hchk : j ^^^ FILE_QUUX < 2 ^ 16 := Nat.xor_lt_two_pow hj16 hq16
    unfold fcb_check
    simp only [memWrite]
    norm_num
    have e16 : ∀ x : Nat, x < 65536 → x / 256 % 256 * 256 + x % 256 = x := by
      intro x hx; omega
    rw [e16 (j ^^^ FILE_QUUX) (by omega), e16 j (by omega)]
    rw [← Nat.xor_assoc, Nat.xor_self, Nat.zero_xor]

/-! Inversion lemmas for the helper steps: each helper either fails,
setting only the termination fields, or succeeds leaving the state
untouched, so its result determines the input state's registers. -/

theorem get_fcb_none_inv (st : OsState) (n : Nat) (st' : OsState)
    (h : get_fcb st n = (st', none)) :
    st'.regA = st.regA := by
  unfold get_fcb at h
  dsimp only at h
  split at h <;> cases h <;> rfl

theorem get_fcb_some_inv (st : OsState) (n : Nat) (st' : OsState) (fcb : Nat)
    (h : get_fcb st n = (st', some fcb)) :
    st' = st ∧ fcb = get_de st ∧ ¬ (MEMORY_SIZE - get_de st < n) := by
  unfold get_fcb at h
  dsimp only at h
  split at h
  · cases h
  · cases h
    exact ⟨rfl, rfl, by assumption⟩

theorem get_drive_none_inv (st : OsState) (fcb : Nat) (st' : OsState)
    (h : get_drive st fcb = (st', none)) :
    st'.regA = st.regA := by
  unfold get_drive at h
  dsimp only at h
  split at h <;> cases h <;> rfl

theorem get_drive_some_inv (st : OsState) (fcb : Nat) (st' : OsState)
    (drive : Nat) (h : get_drive st fcb = (st', some drive)) :
    st' = st ∧ drive = resolve_drive st fcb ∧ drive ≤ 15 ∧
      st.conf_drives drive = true := by
  unfold get_drive at h
  dsimp only at h
  split at h
  · cases h
  · cases h
    next hc =>
      push_neg at hc
      exact ⟨rfl, rfl, by omega, by simpa using hc.2⟩

theorem get_filedata_pp_none_inv (st : OsState) (fcb : Nat) (st' : OsState)
    (h : get_filedata_pp st fcb = (st', none)) :
    st' = { st with terminate := true, term_reason := .ERR_LOGIC } := by
  unfold get_filedata_pp at h
  dsimp only at h
  split at h
  · cases h; rfl
  · split at h
    · cases h; rfl
    · cases h

theorem get_filedata_pp_some_inv (st : OsState) (fcb : Nat) (st' : OsState)
    (id : Nat) (h : get_filedata_pp st fcb = (st', some id)) :
    st' = st ∧ id = st.mem (fcb + 17) * 256 + st.mem (fcb + 16) ∧
      fcb_check st.mem fcb ∧ id_in_list st.files id = true := by
  unfold get_filedata_pp at h
  dsimp only at h
  split at h
  · cases h
  · next hxor =>
    split at h
    · cases h
    · next hin =>
      cases h
      refine ⟨rfl, rfl, ?_, ?_⟩
      · unfold fcb_check
        simpa using hxor
      · simpa using hin

theorem file_fcb_none_inv (st : OsState) (fcb : Nat) (st' : OsState)
    (h : file_fcb st fcb = (st', none)) :
    st' = { st with terminate := true, term_reason := .ERR_LOGIC } :=
  get_filedata_pp_none_inv st fcb st' h

theorem file_fcb_some_inv (st : OsState) (fcb : Nat) (st' : OsState)
    (id : Nat) (h : file_fcb st fcb = (st', some id)) :
    st' = st ∧ id = st.mem (fcb + 17) * 256 + st.mem (fcb + 16) ∧
      fcb_check st.mem fcb ∧ id_in_list st.files id = true :=
  get_filedata_pp_some_inv st fcb st' id h

theorem check_writeable_inv (st : OsState) (id : Nat) (st' : OsState)
    (r : Int) (h : check_writeable st id = (st', r)) :
    st'.regA = st.regA ∧ (r ≠ -1 → st' = st) := by
  unfold check_writeable at h
  dsimp only at h
  split at h
  · cases h; exact ⟨rfl, by intro hc; exact absurd rfl hc⟩
  · split at h
    · cases h; exact ⟨rfl, by intro hc; exact absurd rfl hc⟩
    · cases h; exact ⟨rfl, fun _ => rfl⟩

theorem seek_inv (st : OsState) (b : Bool) (st' : OsState) (r : Int)
    (h : seek st b = (st', r)) :
    st'.regA = st.regA ∧ (r ≠ -1 → st' = st) := by
  unfold seek at h
  cases b
  · simp only [Bool.false_eq_true, if_false] at h
    cases h
    exact ⟨rfl, by intro hc; exact absurd rfl hc⟩
  · simp only [if_true] at h
    cases h
    exact ⟨rfl, fun _ => rfl⟩

theorem read_record_inv (st : OsState) (data : List Nat) (err : Bool)
    (st' : OsState) (r : Int) (h : read_record st data err = (st', r)) :
    st'.regA = st.regA := by
  unfold read_record at h
  dsimp only at h
  cases h
  split <;> split <;> rfl

theorem write_record_inv (st : OsState) (id : Nat) (err : Bool)
    (st' : OsState) (r : Int) (h : write_record st id err = (st', r)) :
    st'.regA = st.regA := by
  unfold write_record at h
  dsimp only at h
  cases h
  split <;> rfl

theorem create_filedata_none_inv (st : OsState) (fcb : Nat) (st' : OsState)
    (h : create_filedata st fcb = (st', none)) :
    st'.regA = st.regA := by
  unfold create_filedata at h
  dsimp only at h
  split at h <;> cases h <;> rfl

theorem create_filedata_some_inv (st : OsState) (fcb : Nat) (st' : OsState)
    (id : Nat) (h1 : 1 ≤ st.file_id) (h2 : st.file_id ≤ 65535)
    (h : create_filedata st fcb = (st', some id)) :
    st'.regA = st.regA ∧ fcb_check st'.mem fcb := by
  refine ⟨?_, create_filedata_stamps st fcb h1 h2 st' id h⟩
  unfold create_filedata at h
  dsimp only at h
  split at h <;> cases h <;> rfl

theorem make_file_success_check (st : OsState) (uname : Option (List Char))
    (createOk : Bool) (h1 : 1 ≤ st.file_id) (h2 : st.file_id ≤ 65535)
    (res : OsState) (heq : bdos_make_file st uname createOk = res)
    (hA : res.regA = 0) :
    fcb_check res.mem (get_de st) := by
  unfold bdos_make_file at heq
  dsimp only at heq
  split at heq
  next st1 hfcb =>
    cases heq
    have hreg := get_fcb_none_inv _ 33 st1 hfcb
    simp [fdos_exit, hreg] at hA
  next st1 fcb hfcb =>
    obtain ⟨hst1, hfcbv, hfcbr⟩ := get_fcb_some_inv _ 33 st1 fcb hfcb
    subst hst1
    split at heq
    · cases heq
      simp [fdos_exit] at hA
    · split at heq
      next st2 hdrv =>
        cases heq
        have hreg := get_drive_none_inv _ _ st2 hdrv
        simp [fdos_exit, hreg] at hA
      next st2 drive hdrv =>
        obtain ⟨hst2, hdrvv, hdrvle, hdrvconf⟩ := get_drive_some_inv _ _ st2 drive hdrv
        subst hst2
        split at heq
        · cases heq
          simp [fdos_exit] at hA
        · split at heq
          next =>
            cases heq
            simp [fdos_exit] at hA
          next name =>
            split at heq
            · cases heq
              simp [fdos_exit] at hA
            · split at heq
              · cases heq
                simp [fdos_exit] at hA
              · split at heq
                next st3 hcf =>
                  cases heq
                  have hreg := create_filedata_none_inv _ _ st3 hcf
                  simp [fdos_exit, hreg] at hA
                next st3 id hcf =>
                  cases heq
                  have hin := create_filedata_some_inv _ _ st3 id
                    (by simpa using h1) (by simpa using h2) hcf
                  have hfcb' : fcb = get_de st := by
                    simpa [get_de] using hfcbv
                  simpa [fdos_exit, hfcb'] using hin.2

theorem open_file_success_check (st : OsState) (dirOf : Nat → List DirEntry)
    (uname : Option (List Char)) (openOut : OpenOutcome)
    (encode : List Char → List Nat)
    (h1 : 1 ≤ st.file_id) (h2 : st.file_id ≤ 65535)
    (res : OsState)
    (heq : bdos_open_file st dirOf uname openOut encode = res)
    (hA : res.regA = 0) :
    fcb_check res.mem (get_de st) := by
  unfold bdos_open_file at heq
  dsimp only at heq
  split at heq
  next st1 hfcb =>
    cases heq
    have hreg := get_fcb_none_inv _ 33 st1 hfcb
    simp [fdos_exit, hreg] at hA
  next st1 fcb hfcb =>
    obtain ⟨hst1, hfcbv, hfcbr⟩ := get_fcb_some_inv _ 33 st1 fcb hfcb
    subst hst1
    have hfcb' : fcb = get_de st := by simpa [get_de] using hfcbv
    split at heq
    · cases heq
      simp [fdos_exit] at hA
    · split at heq
      next st2 hdrv =>
        cases heq
        have hreg := get_drive_none_inv _ _ st2 hdrv
        simp [fdos_exit, hreg] at hA
      next st2 drive hdrv =>
        obtain ⟨hst2, hdrvv, hdrvle, hdrvconf⟩ := get_drive_some_inv _ _ st2 drive hdrv
        subst hst2
        split at heq
        next =>
          cases heq
          simp [fdos_exit] at hA
        next pattern =>
          split at heq
          next =>
            cases heq
            simp [fdos_exit] at hA
          next tp hfind =>
            split at heq
            next hopen =>
              cases heq
              simp [fdos_exit] at hA
            next flags hopen =>
              split at heq
              next st3 hcf =>
                cases heq
                have hreg := create_filedata_none_inv _ _ st3 hcf
                have : st3.regA = 0xff := by
                  rw [hreg]
                  split <;> rfl
                simp [fdos_exit, this] at hA
              next st3 id hcf =>
                cases heq
                have hin := create_filedata_some_inv _ _ st3 id
                  (by split <;> simpa using h1) (by split <;> simpa using h2)
                  hcf
                simpa [fdos_exit, hfcb'] using hin.2

theorem read_seq_badfcb (st : OsState) (io : HostIO)
    (hb : get_de st + 33 ≤ MEMORY_SIZE) (hc : ¬ fcb_check st.mem (get_de st)) :
    (bdos_read_sequential st io).terminate = true ∧
      (bdos_read_sequential st io).term_reason = .ERR_LOGIC := by
  unfold bdos_read_sequential file_fcb
  dsimp only
  rw [get_fcb_eq_ok _ 33 (by simpa [get_de] using hb)]
  dsimp only
  rw [get_filedata_pp_eq_fail _ _ (by simpa [get_de] using hc)]
  exact ⟨rfl, rfl⟩

theorem write_seq_badfcb (st : OsState) (io : HostIO)
    (hb : get_de st + 33 ≤ MEMORY_SIZE) (hc : ¬ fcb_check st.mem (get_de st)) :
    (bdos_write_sequential st io).terminate = true ∧
      (bdos_write_sequential st io).term_reason = .ERR_LOGIC := by
  unfold bdos_write_sequential file_fcb
  dsimp only
  rw [get_fcb_eq_ok _ 33 (by simpa [get_de] using hb)]
  dsimp only
  rw [get_filedata_pp_eq_fail _ _ (by simpa [get_de] using hc)]
  exact ⟨rfl, rfl⟩

theorem read_random_badfcb (st : OsState) (io : HostIO)
    (hb : get_de st + 36 ≤ MEMORY_SIZE) (hc : ¬ fcb_check st.mem (get_de st)) :
    (bdos_read_random st io).terminate = true ∧
      (bdos_read_random st io).term_reason = .ERR_LOGIC := by
  unfold bdos_read_random file_fcb
  dsimp only
  rw [get_fcb_eq_ok _ 36 (by simpa [get_de] using hb)]
  dsimp only
  rw [get_filedata_pp_eq_fail _ _ (by simpa [get_de] using hc)]
  exact ⟨rfl, rfl⟩

theorem write_random_badfcb (st : OsState) (io : HostIO)
    (hb : get_de st + 36 ≤ MEMORY_SIZE) (hc : ¬ fcb_check st.mem (get_de st)) :
    (bdos_write_random st io).terminate = true ∧
      (bdos_write_random st io).term_reason = .ERR_LOGIC := by
  unfold bdos_write_random write_random file_fcb
  dsimp only
  rw [get_fcb_eq_ok _ 36 (by simpa [get_de] using hb)]
  dsimp only
  rw [get_filedata_pp_eq_fail _ _ (by simpa [get_de] using hc)]
  exact ⟨rfl, rfl⟩

theorem close_badfcb (st : OsState) (closeOk : Bool)
    (hb : get_de st + 33 ≤ MEMORY_SIZE) (hc : ¬ fcb_check st.mem (get_de st)) :
    (bdos_close_file st closeOk).terminate = true ∧
      (bdos_close_file st closeOk).term_reason = .ERR_LOGIC := by
  unfold bdos_close_file
  dsimp only
  rw [get_fcb_eq_ok _ 33 (by simpa [get_de] using hb)]
  dsimp only
  rw [get_filedata_pp_eq_fail _ _ (by simpa [get_de] using hc)]
  exact ⟨rfl, rfl⟩

/-- C2.  The FCB ID protocol: (1)–(2) after `Open File` (BDOS 15) or
`Make File` (BDOS 22) returns success (`A = 0`), FCB bytes 16..19
satisfy `id xor check = 0xAFCB`; (3)–(4) `get_filedata_pp` — the
validation run by every FDOS operation that consumes an open FCB —
requests fatal termination with `ERR_LOGIC` when the equation fails or
when the ID is not a live registry entry; (5) consequently close,
read/write sequential and read/write random (both flavours) all
terminate with `ERR_LOGIC` on an FCB whose check fails. -/
theorem fcb_id_protocol :
    (∀ st dirOf uname openOut encode res,
        1 ≤ st.file_id → st.file_id ≤ 65535 →
        bdos_open_file st dirOf uname openOut encode = res → res.regA = 0 →
        fcb_check res.mem (get_de st)) ∧
    (∀ st uname createOk res,
        1 ≤ st.file_id → st.file_id ≤ 65535 →
        bdos_make_file st uname createOk = res → res.regA = 0 →
        fcb_check res.mem (get_de st)) ∧
    (∀ st fcb, ¬ fcb_check st.mem fcb →
        get_filedata_pp st fcb =
          ({ st with terminate := true, term_reason := .ERR_LOGIC }, none)) ∧
    (∀ st fcb,
        fcb_check st.mem fcb →
        id_in_list st.files
          (st.mem (fcb + 17) * 256 + st.mem (fcb + 16)) = false →
        get_filedata_pp st fcb =
          ({ st with terminate := true, term_reason := .ERR_LOGIC }, none)) ∧
    (∀ st, get_de st + 36 ≤ MEMORY_SIZE →
        ¬ fcb_check st.mem (get_de st) →
        (∀ io, (bdos_read_sequential st io).terminate = true ∧
          (bdos_read_sequential st io).term_reason = .ERR_LOGIC) ∧
        (∀ io, (bdos_write_sequential st io).terminate = true ∧
          (bdos_write_sequential st io).term_reason = .ERR_LOGIC) ∧
        (∀ io, (bdos_read_random st io).terminate = true ∧
          (bdos_read_random st io).term_reason = .ERR_LOGIC) ∧
        (∀ io, (bdos_write_random st io).terminate = true ∧
          (bdos_write_random st io).term_reason = .ERR_LOGIC) ∧
        (∀ b, (bdos_close_file st b).terminate = true ∧
          (bdos_close_file st b).term_reason = .ERR_LOGIC)) := by
  refine ⟨?_, ?_, ?_, ?_, ?_⟩
  · intro st dirOf uname openOut encode res hb1 hb2 heq hA
    exact open_file_success_check st dirOf uname openOut encode hb1 hb2
      res heq hA
  · intro st uname createOk res hb1 hb2 heq hA
    exact make_file_success_check st uname createOk hb1 hb2 res heq hA
  · intro st fcb hc
    exact get_filedata_pp_eq_fail st fcb hc
  · intro st fcb hc hin
    exact get_filedata_pp_eq_stale st fcb hc hin
  · intro st hb hc
    exact ⟨fun io => read_seq_badfcb st io (by omega) hc,
      fun io => write_seq_badfcb st io (by omega) hc,
      fun io => read_random_badfcb st io hb hc,
      fun io => write_random_badfcb st io hb hc,
      fun b => close_badfcb st b (by omega) hc⟩

/-- An OS state whose default FCB at `0x5C` names an unambiguous file on
a writable configured drive, the registry being empty. -/
def stMake : OsState :=
  { mem := fun _ => 0, regA := 0, regB := 0, regC := 0, regD := 0,
    regE := 0x5c, regH := 0, regL := 0, terminate := false,
    term_reason := .OK_NOTRUN, current_drive := 0, current_dma := 0x80,
    read_only := fun _ => false, conf_drives := fun _ => true, files := [],
    file_id := 1, search_list := [], dont_close := false, host_writes := 0 }

/-- C2 (witness): a concrete `Make File` call that succeeds with `A = 0`
leaves the check equation holding, and `get_filedata_pp` on the all-zero
FCB (whose check fails) requests `ERR_LOGIC` termination. -/
theorem fcb_id_protocol_witness :
    fcb_check (bdos_make_file stMake (some ['f']) true).mem (get_de stMake) ∧
    get_filedata_pp stMake 0x5c =
      ({ stMake with terminate := true, term_reason := .ERR_LOGIC }, none) :=
  ⟨fcb_id_protocol.2.1 stMake (some ['f']) true _ (by decide) (by decide)
      rfl rfl,
    fcb_id_protocol.2.2.1 stMake 0x5c (by decide)⟩

/-! ### Sequential offset bookkeeping (claim C3) -/

theorem get_offset_le (mem : Nat → Nat) (fcb o : Nat)
    (h : get_offset mem fcb = some o) : o ≤ 65536 := by
  unfold get_offset at h
  dsimp only at h
  split at h
  · cases h
  · next hcond =>
    cases h
    push_neg at hcond
    obtain ⟨hcr, hex, hs2, h16⟩ := hcond
    by_cases hs : mem (fcb + 14) = 16
    · obtain ⟨hc0, he0⟩ := h16 hs
      omega
    · omega

theorem get_set_offset (mem : Nat → Nat) (fcb o : Nat) (h : o ≤ 65536) :
    get_offset (set_offset mem fcb o) fcb = some o := by
  have e1 : fcb + 12 ≠ fcb + 14 := by omega
  have e2 : fcb + 32 ≠ fcb + 14 := by omega
  have e3 : fcb + 32 ≠ fcb + 12 := by omega
  unfold get_offset set_offset memWrite
  dsimp only
  simp only [eq_self_iff_true, if_true, e1, e2, e3, if_false]
  rw [if_neg]
  · congr 1
    omega
  · push_neg
    refine ⟨by omega, by omega, by omega, ?_⟩
    intro h16
    constructor <;> omega

theorem read_seq_success_increments (st : OsState) (io : HostIO)
    (res : OsState) (heq : bdos_read_sequential st io = res)
    (hA : res.regA = 0) :
    ∃ o, get_offset st.mem (get_de st) = some o ∧ o + 1 ≤ 65536 ∧
      get_offset res.mem (get_de st) = some (o + 1) := by
  unfold bdos_read_sequential file_fcb at heq
  dsimp only at heq
  split at heq
  next st1 hfcb =>
    cases heq
    have hreg := get_fcb_none_inv _ 33 st1 hfcb
    simp [fdos_exit, hreg] at hA
  next st1 fcb hfcb =>
    obtain ⟨hst1, hfcbv, hfcbr⟩ := get_fcb_some_inv _ 33 st1 fcb hfcb
    have hfcb' : fcb = get_de st := by simpa [get_de] using hfcbv
    have hmem1 : st1.mem = st.mem := by rw [hst1]
    have hreg1 : st1.regA = 1 := by rw [hst1]
    split at heq
    next st2 hpp =>
      cases heq
      have h2 := get_filedata_pp_none_inv _ _ st2 hpp
      have : st2.regA = st1.regA := by rw [h2]
      simp [fdos_exit, this, hreg1] at hA
    next st2 id hpp =>
      obtain ⟨hst2, hidv, hchkv, hinlv⟩ := get_filedata_pp_some_inv _ _ st2 id hpp
      have hmem2 : st2.mem = st.mem := by rw [hst2, hmem1]
      have hreg2 : st2.regA = 1 := by rw [hst2, hreg1]
      split at heq
      next =>
        cases heq
        simp [fdos_exit] at hA
      next offset hoff =>
        split at heq
        · cases heq
          simp [fdos_exit] at hA
        · next hne =>
          rcases hseek : seek st2 io.seekOk with ⟨st3, sr⟩
          rw [hseek] at heq
          dsimp only at heq
          obtain ⟨hreg3, hok3⟩ := seek_inv _ _ st3 sr hseek
          split at heq
          · cases heq
            simp [fdos_exit, hreg3, hreg2] at hA
          · next hsr =>
            rcases hread : read_record st3 io.readData io.readErr
              with ⟨st4, rr⟩
            rw [hread] at heq
            dsimp only at heq
            have hreg4 := read_record_inv _ _ _ st4 rr hread
            split at heq
            · cases heq
              simp [fdos_exit, hreg4, hreg3, hreg2] at hA
            · cases heq
              have hole := get_offset_le _ _ _ hoff
              refine ⟨offset, ?_, by omega, ?_⟩
              · rw [← hfcb', ← hmem2]
                exact hoff
              · simpa [fdos_exit, hfcb'] using
                  get_set_offset st4.mem fcb (offset + 1) (by omega)

theorem write_seq_success_increments (st : OsState) (io : HostIO)
    (res : OsState) (heq : bdos_write_sequential st io = res)
    (hA : res.regA = 0) :
    ∃ o, get_offset st.mem (get_de st) = some o ∧ o + 1 ≤ 65536 ∧
      get_offset res.mem (get_de st) = some (o + 1) := by
  unfold bdos_write_sequential file_fcb at heq
  dsimp only at heq
  split at heq
  next st1 hfcb =>
    cases heq
    have hreg := get_fcb_none_inv _ 33 st1 hfcb
    simp [fdos_exit, hreg] at hA
  next st1 fcb hfcb =>
    obtain ⟨hst1, hfcbv, hfcbr⟩ := get_fcb_some_inv _ 33 st1 fcb hfcb
    have hfcb' : fcb = get_de st := by simpa [get_de] using hfcbv
    have hmem1 : st1.mem = st.mem := by rw [hst1]
    have hreg1 : st1.regA = 2 := by rw [hst1]
    split at heq
    next st2 hpp =>
      cases heq
      have h2 := get_filedata_pp_none_inv _ _ st2 hpp
      have : st2.regA = st1.regA := by rw [h2]
      simp [fdos_exit, this, hreg1] at hA
    next st2 id hpp =>
      obtain ⟨hst2, hidv, hchkv, hinlv⟩ := get_filedata_pp_some_inv _ _ st2 id hpp
      have hmem2 : st2.mem = st.mem := by rw [hst2, hmem1]
      have hreg2 : st2.regA = 2 := by rw [hst2, hreg1]
      rcases hcw : check_writeable st2 id with ⟨stw, cw⟩
      rw [hcw] at heq
      dsimp only at heq
      obtain ⟨hregw, hokw⟩ := check_writeable_inv _ _ stw cw hcw
      split at heq
      · cases heq
        simp [fdos_exit, hregw, hreg2] at hA
      · next hcwne =>
        have hstw := hokw hcwne
        split at heq
        next =>
          cases heq
          simp [fdos_exit] at hA
        next offset hoff =>
          split at heq
          · cases heq
            simp [fdos_exit] at hA
          · next hne =>
            rcases hseek : seek stw io.seekOk with ⟨st3, sr⟩
            rw [hseek] at heq
            dsimp only at heq
            obtain ⟨hreg3, hok3⟩ := seek_inv _ _ st3 sr hseek
            split at heq
            · cases heq
              simp [fdos_exit, hreg3, hregw, hreg2] at hA
            · next hsr =>
              rcases hwrite : write_record st3 id io.writeErr with ⟨st4, wr⟩
              rw [hwrite] at heq
              dsimp only at heq
              have hreg4 := write_record_inv _ _ _ st4 wr hwrite
              split at heq
              · cases heq
                simp [fdos_exit, hreg4, hreg3, hregw, hreg2] at hA
              · cases heq
                have hmemw : stw.mem = st.mem := by rw [hstw, hmem2]
                have hole := get_offset_le _ _ _ hoff
                refine ⟨offset, ?_, by omega, ?_⟩
                · rw [← hfcb', ← hmemw]
                  exact hoff
                · simpa [fdos_exit, hfcb'] using
                    get_set_offset st4.mem fcb (offset + 1) (by omega)

/-- C3.  Whenever `Read Sequential` (BDOS 20) or `Write Sequential`
(BDOS 21) returns success (`A = 0`), the sequential offset encoded by
the FCB triple (S2, EX, CR) — `offset = S2·4096 + EX·128 + CR`, as
decoded by `get_offset` — is afterwards exactly one greater than it was
before the call. -/
theorem sequential_offset_increments :
    (∀ st io res, bdos_read_sequential st io = res → res.regA = 0 →
      ∃ o, get_offset st.mem (get_de st) = some o ∧ o + 1 ≤ 65536 ∧
        get_offset res.mem (get_de st) = some (o + 1)) ∧
    (∀ st io res, bdos_write_sequential st io = res → res.regA = 0 →
      ∃ o, get_offset st.mem (get_de st) = some o ∧ o + 1 ≤ 65536 ∧
        get_offset res.mem (get_de st) = some (o + 1)) :=
  ⟨read_seq_success_increments, write_seq_success_increments⟩

/-- An OS state with an open registry entry (ID 1) referenced by a valid
FCB at `0x5C` whose sequential offset is 0. -/
def stSeq : OsState :=
  { mem := fun a =>
      if a = 0x6c then 1
      else if a = 0x6e then 0xca
      else if a = 0x6f then 0xaf
      else 0,
    regA := 0, regB := 0, regC := 0, regD := 0, regE := 0x5c, regH := 0,
    regL := 0, terminate := false, term_reason := .OK_NOTRUN,
    current_drive := 0, current_dma := 0x80, read_only := fun _ => false,
    conf_drives := fun _ => true, files := [⟨1, 0⟩], file_id := 2,
    search_list := [], dont_close := false, host_writes := 0 }

/-- A host oracle for a successful full-record read. -/
def ioOk : HostIO :=
  { seekOk := true, readData := List.replicate 128 0x41, readErr := false,
    writeErr := false }

set_option maxRecDepth 10000 in
/-- C3 (witness): a concrete successful sequential read advances the
offset from 0 to 1. -/
theorem sequential_offset_increments_witness :
    ∃ o, get_offset stSeq.mem (get_de stSeq) = some o ∧ o + 1 ≤ 65536 ∧
      get_offset (bdos_read_sequential stSeq ioOk).mem (get_de stSeq) =
        some (o + 1) :=
  sequential_offset_increments.1 stSeq ioOk _ rfl (by rfl)

/-! ### Record-out-of-range handling (claim C7) -/

theorem check_writeable_eq_ok (st : OsState) (id : Nat)
    (h1 : lookup_flags st.files id &&& FILE_RODISK = 0)
    (h2 : lookup_flags st.files id &&& FILE_ROFILE = 0) :
    check_writeable st id = (st, 0) := by
  unfold check_writeable
  dsimp only
  rw [if_neg (by simp [h1]), if_neg (by simp [h2])]

/-- The FCB at DE is valid for a 36-byte access and references a live
registry entry. -/
def valid_fcb36 (st : OsState) : Prop :=
  get_de st + 36 ≤ MEMORY_SIZE ∧ fcb_check st.mem (get_de st) ∧
  id_in_list st.files
    (st.mem (get_de st + 17) * 256 + st.mem (get_de st + 16)) = true

/-- The registry entry referenced by the FCB at DE carries neither the
`FILE_RODISK` nor the `FILE_ROFILE` flag. -/
def writable_fcb (st : OsState) : Prop :=
  lookup_flags st.files
      (st.mem (get_de st + 17) * 256 + st.mem (get_de st + 16)) &&&
    FILE_RODISK = 0 ∧
  lookup_flags st.files
      (st.mem (get_de st + 17) * 256 + st.mem (get_de st + 16)) &&&
    FILE_ROFILE = 0

/-- The fields of the state the C7 claim asserts are not modified:
guest memory (hence the DMA buffer and the FCB offset fields), the
registry flags, the host file (counted by `host_writes`), and the
termination request. -/
def unchanged_io_state (st res : OsState) : Prop :=
  res.mem = st.mem ∧ res.files = st.files ∧
  res.host_writes = st.host_writes ∧ res.terminate = st.terminate

theorem read_seq_range_error (st : OsState) (io : HostIO)
    (hv : valid_fcb36 st)
    (hoff : get_offset st.mem (get_de st) = none ∨
      get_offset st.mem (get_de st) = some 65536) :
    (bdos_read_sequential st io).regA = 6 ∧
      unchanged_io_state st (bdos_read_sequential st io) := by
  obtain ⟨hb, hchk, hin⟩ := hv
  unfold bdos_read_sequential file_fcb
  dsimp only
  rw [get_fcb_eq_ok _ 33 (by simp only [get_de] at hb ⊢; omega)]
  dsimp only
  rw [get_filedata_pp_eq_ok _ _ (by simpa [get_de] using hchk)
    (by simpa [get_de] using hin)]
  dsimp only
  simp only [get_de]
  rcases hoff with hoff | hoff
  · rw [show get_offset st.mem (st.regD * 256 + st.regE) = none by
      simpa [get_de] using hoff]
    exact ⟨rfl, rfl, rfl, rfl, rfl⟩
  · rw [show get_offset st.mem (st.regD * 256 + st.regE) = some 65536 by
      simpa [get_de] using hoff]
    dsimp only
    rw [if_pos rfl]
    exact ⟨rfl, rfl, rfl, rfl, rfl⟩

theorem write_seq_range_error (st : OsState) (io : HostIO)
    (hv : valid_fcb36 st) (hw : writable_fcb st)
    (hoff : get_offset st.mem (get_de st) = none ∨
      get_offset st.mem (get_de st) = some 65536) :
    (bdos_write_sequential st io).regA = 6 ∧
      unchanged_io_state st (bdos_write_sequential st io) := by
  obtain ⟨hb, hchk, hin⟩ := hv
  obtain ⟨hw1, hw2⟩ := hw
  unfold bdos_write_sequential file_fcb
  dsimp only
  rw [get_fcb_eq_ok _ 33 (by simp only [get_de] at hb ⊢; omega)]
  dsimp only
  rw [get_filedata_pp_eq_ok _ _ (by simpa [get_de] using hchk)
    (by simpa [get_de] using hin)]
  dsimp only
  rw [check_writeable_eq_ok _ _ (by simpa [get_de] using hw1)
    (by simpa [get_de] using hw2)]
  dsimp only
  rw [if_neg (by decide)]
  simp only [get_de]
  rcases hoff with hoff | hoff
  · rw [show get_offset st.mem (st.regD * 256 + st.regE) = none by
      simpa [get_de] using hoff]
    exact ⟨rfl, rfl, rfl, rfl, rfl⟩
  · rw [show get_offset st.mem (st.regD * 256 + st.regE) = some 65536 by
      simpa [get_de] using hoff]
    dsimp only
    rw [if_pos rfl]
    exact ⟨rfl, rfl, rfl, rfl, rfl⟩

theorem read_random_range_error (st : OsState) (io : HostIO)
    (hv : valid_fcb36 st)
    (hoff : get_random st.mem (get_de st) = none ∨
      get_random st.mem (get_de st) = some 65536) :
    (bdos_read_random st io).regA = 6 ∧
      unchanged_io_state st (bdos_read_random st io) := by
  obtain ⟨hb, hchk, hin⟩ := hv
  unfold bdos_read_random file_fcb
  dsimp only
  rw [get_fcb_eq_ok _ 36 (by simp only [get_de] at hb ⊢; omega)]
  dsimp only
  rw [get_filedata_pp_eq_ok _ _ (by simpa [get_de] using hchk)
    (by simpa [get_de] using hin)]
  dsimp only
  simp only [get_de]
  rcases hoff with hoff | hoff
  · rw [show get_random st.mem (st.regD * 256 + st.regE) = none by
      simpa [get_de] using hoff]
    exact ⟨rfl, rfl, rfl, rfl, rfl⟩
  · rw [show get_random st.mem (st.regD * 256 + st.regE) = some 65536 by
      simpa [get_de] using hoff]
    dsimp only
    rw [if_pos rfl]
    exact ⟨rfl, rfl, rfl, rfl, rfl⟩

theorem write_random_range_error (st : OsState) (io : HostIO)
    (hv : valid_fcb36 st) (hw : writable_fcb st)
    (hoff : get_random st.mem (get_de st) = none ∨
      get_random st.mem (get_de st) = some 65536) :
    (bdos_write_random st io).regA = 6 ∧
      unchanged_io_state st (bdos_write_random st io) ∧
      (bdos_write_random_with_zero_fill st io).regA = 6 ∧
      unchanged_io_state st (bdos_write_random_with_zero_fill st io) := by
  obtain ⟨hb, hchk, hin⟩ := hv
  obtain ⟨hw1, hw2⟩ := hw
  unfold bdos_write_random bdos_write_random_with_zero_fill write_random
    file_fcb
  dsimp only
  rw [get_fcb_eq_ok _ 36 (by simp only [get_de] at hb ⊢; omega)]
  dsimp only
  rw [get_filedata_pp_eq_ok _ _ (by simpa [get_de] using hchk)
    (by simpa [get_de] using hin)]
  dsimp only
  rw [check_writeable_eq_ok _ _ (by simpa [get_de] using hw1)
    (by simpa [get_de] using hw2)]
  dsimp only
  rw [if_neg (by decide)]
  simp only [get_de]
  rcases hoff with hoff | hoff
  · rw [show get_random st.mem (st.regD * 256 + st.regE) = none by
      simpa [get_de] using hoff]
    exact ⟨rfl, ⟨rfl, rfl, rfl, rfl⟩, rfl, rfl, rfl, rfl, rfl⟩
  · rw [show get_random st.mem (st.regD * 256 + st.regE) = some 65536 by
      simpa [get_de] using hoff]
    dsimp only
    rw [if_pos rfl]
    exact ⟨rfl, ⟨rfl, rfl, rfl, rfl⟩, rfl, rfl, rfl, rfl, rfl⟩

/-- A state whose FCB at `0x5C` has all-zero ID bytes (so the FCB check
fails) and an out-of-range random record field (byte 35 = 2, encoding
131072). -/
def stBad : OsState :=
  { mem := fun a => if a = 0x7f then 2 else 0,
    regA := 0, regB := 0, regC := 0, regD := 0, regE := 0x5c, regH := 0,
    regL := 0, terminate := false, term_reason := .OK_NOTRUN,
    current_drive := 0, current_dma := 0x80, read_only := fun _ => false,
    conf_drives := fun _ => true, files := [], file_id := 1,
    search_list := [], dont_close := false, host_writes := 0 }

/-- C7 (counterexample).  The claim promises error code `0x06` whenever
the random record field is out of range; but on `stBad`, whose random
field encodes 131072 (out of range) while the FCB ID bytes are zero,
`Read Random` never reaches the range check: `get_filedata_pp` requests
fatal `ERR_LOGIC` termination first, and the returned code is the
initial `0x01`, not `0x06`. -/
theorem record_range_cex :
    get_random stBad.mem (get_de stBad) = none ∧
    (bdos_read_random stBad ioOk).regA = 1 ∧
    (bdos_read_random stBad ioOk).terminate = true ∧
    (bdos_read_random stBad ioOk).term_reason = .ERR_LOGIC :=
  ⟨by decide, rfl, rfl, rfl⟩

/-- C7 (amended).  Provided the call's earlier checks pass — the FCB
references a live registry entry with a valid check word, and for the
write calls the file is writable — an out-of-range sequential triple
(for BDOS 20/21) or random record field (for BDOS 33/34/40), including
the value 65536, makes the call return `0x06` with guest memory (DMA
buffer and FCB offset fields), the registry flags, the host file and the
termination state all unmodified. -/
theorem record_range_error :
    (∀ st io, valid_fcb36 st →
      (get_offset st.mem (get_de st) = none ∨
        get_offset st.mem (get_de st) = some 65536) →
      (bdos_read_sequential st io).regA = 6 ∧
        unchanged_io_state st (bdos_read_sequential st io)) ∧
    (∀ st io, valid_fcb36 st → writable_fcb st →
      (get_offset st.mem (get_de st) = none ∨
        get_offset st.mem (get_de st) = some 65536) →
      (bdos_write_sequential st io).regA = 6 ∧
        unchanged_io_state st (bdos_write_sequential st io)) ∧
    (∀ st io, valid_fcb36 st →
      (get_random st.mem (get_de st) = none ∨
        get_random st.mem (get_de st) = some 65536) →
      (bdos_read_random st io).regA = 6 ∧
        unchanged_io_state st (bdos_read_random st io)) ∧
    (∀ st io, valid_fcb36 st → writable_fcb st →
      (get_random st.mem (get_de st) = none ∨
        get_random st.mem (get_de st) = some 65536) →
      (bdos_write_random st io).regA = 6 ∧
        unchanged_io_state st (bdos_write_random st io) ∧
        (bdos_write_random_with_zero_fill st io).regA = 6 ∧
        unchanged_io_state st (bdos_write_random_with_zero_fill st io)) :=
  ⟨read_seq_range_error, write_seq_range_error, read_random_range_error,
    write_random_range_error⟩

/-- Like `stSeq`, but with an out-of-range random record field
(byte 35 = 2). -/
def stRange : OsState :=
  { stSeq with mem := fun a => if a = 0x7f then 2 else stSeq.mem a }

/-- C7 (witness for the amended theorem): on `stRange`, whose FCB is
valid but whose random field encodes 131072, `Read Random` returns
`0x06` and modifies nothing. -/
theorem record_range_error_witness :
    (bdos_read_random stRange ioOk).regA = 6 ∧
      unchanged_io_state stRange (bdos_read_random stRange ioOk) :=
  record_range_error.2.2.1 stRange ioOk
    ⟨by decide, by decide, by decide⟩ (Or.inl (by decide))

/-! ### Search enumeration (claims C4, C9) -/

/-- The names delivered by repeatedly calling `Search Next` (BDOS 18)
until it returns `0xFF`: each successful call pops the head of the
search list and synthesizes its directory entry into the DMA buffer. -/
def drain (encode : List Char → List Nat) : Nat → OsState → List (List Char)
  | 0, _ => []
  | fuel + 1, st =>
    match st.search_list with
    | [] => []
    | e :: _ => e.name :: drain encode fuel (bdos_search_for_next st encode)

theorem foldl_prepend_filter {α β : Type} (p : α → Bool) (g : α → β) :
    ∀ (l : List α) (acc : List β),
      l.foldl (fun acc e => if p e then g e :: acc else acc) acc =
        ((l.filter p).map g).reverse ++ acc := by
  intro l
  induction l with
  | nil => intro acc; simp
  | cons e rest ih =>
    intro acc
    by_cases hp : p e
    · simp [List.foldl_cons, hp, ih, List.filter_cons]
    · simp [List.foldl_cons, hp, ih, List.filter_cons]

/-- The search list built by `get_filelist` is the reverse of the
`readdir`-order survivors. -/
theorem get_filelist_eq (dir : List DirEntry) (pattern : List Char) :
    get_filelist dir pattern =
      ((dir.filter (fun e => survives pattern e)).map
        (fun e => (⟨e.name, (e.size + 127) / 128⟩ : FileListEntry))).reverse := by
  unfold get_filelist
  simpa using foldl_prepend_filter (fun e => survives pattern e)
    (fun e => (⟨e.name, (e.size + 127) / 128⟩ : FileListEntry)) dir []

theorem search_for_next_spec (st : OsState) (encode : List Char → List Nat) :
    (bdos_search_for_next st encode).regA =
      (if st.search_list.isEmpty then 0xff else 0) ∧
    (bdos_search_for_next st encode).search_list = st.search_list.tail := by
  unfold bdos_search_for_next return_direntry fdos_exit
  cases st.search_list <;> simp

theorem drain_eq (encode : List Char → List Nat) :
    ∀ (l : List FileListEntry) (st : OsState) (fuel : Nat),
      st.search_list = l → l.length ≤ fuel →
      drain encode fuel st = l.map (·.name) := by
  intro l
  induction l with
  | nil =>
    intro st fuel h hf
    cases fuel with
    | zero => rfl
    | succ n => rw [drain, h]; rfl
  | cons e rest ih =>
    intro st fuel h hf
    cases fuel with
    | zero => simp at hf
    | succ n =>
      rw [drain, h]
      dsimp only
      congr 1
      have hnext := search_for_next_spec st encode
      exact ih (bdos_search_for_next st encode) n
        (by rw [hnext.2, h]; rfl) (by simpa using hf)

theorem search_first_spec (st : OsState) (dirOf : Nat → List DirEntry)
    (pattern : List Char) (encode : List Char → List Nat) (d : Nat)
    (hb : get_de st + 32 ≤ MEMORY_SIZE)
    (hres : (st.mem (get_de st) = 0x3f ∧ d = st.current_drive) ∨
      (st.mem (get_de st) ≠ 0x3f ∧ d = resolve_drive st (get_de st) ∧
        d ≤ 15 ∧ st.conf_drives d = true)) :
    (bdos_search_for_first st dirOf (some pattern) encode).search_list =
      (get_filelist (dirOf d) pattern).tail ∧
    (bdos_search_for_first st dirOf (some pattern) encode).regA =
      (if (get_filelist (dirOf d) pattern).isEmpty then 0xff else 0) ∧
    (bdos_search_for_first st dirOf (some pattern) encode).terminate =
      st.terminate ∧
    (bdos_search_for_first st dirOf (some pattern) encode).term_reason =
      st.term_reason := by
  unfold bdos_search_for_first search_drive
  dsimp only
  rw [get_fcb_eq_ok _ 32 (by simp only [get_de] at hb ⊢; omega)]
  dsimp only
  rcases hres with ⟨hwc, hd⟩ | ⟨hnwc, hd, hle, hconf⟩
  · rw [if_pos (by simpa [get_de] using hwc)]
    dsimp only
    subst hd
    unfold return_direntry fdos_exit
    cases hL : get_filelist (dirOf st.current_drive) pattern <;> simp [hL]
  · rw [if_neg (by simpa [get_de] using hnwc)]
    rw [get_drive_eq_ok _ _ (hd ▸ hle) (hd ▸ hconf)]
    dsimp only
    have hd' : resolve_drive
        { st with regA := 0xff : OsState } (get_de { st with regA := 0xff }) =
          d := by
      simp only [resolve_drive, get_de] at hd ⊢
      omega
    rw [hd']
    unfold return_direntry fdos_exit
    cases hL : get_filelist (dirOf d) pattern <;> simp [hL]

/-- C4 (amended).  `Search First` followed by `Search Next` until `0xFF`
enumerates every surviving directory entry (regular, "nice", ≤ 8 MiB,
`?`-matching, `lstat`-able) exactly once — but in *reverse* directory
order, because `get_filelist` prepends survivors while scanning.
Conjuncts: (1) `Search Next` pops the head of the search list, returning
`0xFF` exactly when it is empty; (2) for a `Search First` whose FCB and
drive resolve, the resulting search list is the tail of
`get_filelist`, the returned code reflects emptiness, the full delivery
sequence (first delivery plus drained `Search Next` deliveries) is
`get_filelist`'s name sequence, that sequence is the reverse of the
directory-order survivors, and, when the directory has no duplicate
names, each surviving entry's name is delivered exactly once. -/
theorem search_enumerates :
    (∀ st encode, (bdos_search_for_next st encode).regA =
        (if st.search_list.isEmpty then 0xff else 0) ∧
      (bdos_search_for_next st encode).search_list = st.search_list.tail) ∧
    (∀ st (dirOf : Nat → List DirEntry) pattern encode d fuel,
      get_de st + 32 ≤ MEMORY_SIZE →
      ((st.mem (get_de st) = 0x3f ∧ d = st.current_drive) ∨
        (st.mem (get_de st) ≠ 0x3f ∧ d = resolve_drive st (get_de st) ∧
          d ≤ 15 ∧ st.conf_drives d = true)) →
      (bdos_search_for_first st dirOf (some pattern) encode).search_list =
        (get_filelist (dirOf d) pattern).tail ∧
      (bdos_search_for_first st dirOf (some pattern) encode).regA =
        (if (get_filelist (dirOf d) pattern).isEmpty then 0xff else 0) ∧
      (∀ e rest, get_filelist (dirOf d) pattern = e :: rest →
        rest.length ≤ fuel →
        e.name :: drain encode fuel
          (bdos_search_for_first st dirOf (some pattern) encode) =
          (get_filelist (dirOf d) pattern).map (·.name)) ∧
      (get_filelist (dirOf d) pattern).map (·.name) =
        (((dirOf d).filter (fun e => survives pattern e)).map
          (·.name)).reverse ∧
      (((dirOf d).map (·.name)).Nodup →
        ∀ e ∈ dirOf d, survives pattern e = true →
          @List.count (List Char) instBEqOfDecidableEq e.name
            ((get_filelist (dirOf d) pattern).map (·.name)) = 1)) := by
  refine ⟨search_for_next_spec, ?_⟩
  intro st dirOf pattern encode d fuel hb hres
  obtain ⟨hsl, hra, hterm, hreason⟩ :=
    search_first_spec st dirOf pattern encode d hb hres
  have hmapname : (get_filelist (dirOf d) pattern).map (·.name) =
      (((dirOf d).filter (fun e => survives pattern e)).map
        (·.name)).reverse := by
    rw [get_filelist_eq]
    simp [List.map_reverse, List.map_map, Function.comp]
  refine ⟨hsl, hra, ?_, hmapname, ?_⟩
  · intro e rest hL hfuel
    have hdr := drain_eq encode rest
      (bdos_search_for_first st dirOf (some pattern) encode) fuel
      (by rw [hsl, hL]; rfl) hfuel
    rw [hdr, hL]
    rfl
  · intro hnd e he hsur
    rw [hmapname, @List.count_reverse (List Char) instBEqOfDecidableEq]
    have hsub : List.Sublist
        (((dirOf d).filter (fun e => survives pattern e)).map (·.name))
        ((dirOf d).map (·.name)) :=
      (List.filter_sublist _).map _
    have hmem : e.name ∈ ((dirOf d).filter
        (fun e => survives pattern e)).map (·.name) :=
      List.mem_map_of_mem _ (List.mem_filter.2 ⟨he, hsur⟩)
    exact List.count_eq_one_of_mem (hsub.nodup hnd) hmem

/-- A directory whose entries, in `readdir` order, are the nice regular
files `a` and `b`. -/
def dirAB : List DirEntry :=
  [⟨['a'], true, true, 0⟩, ⟨['b'], true, true, 0⟩]

/-- A state for a `Search First` on the default FCB at `0x5C`, drive
byte 0 (current drive), drive A configured. -/
def stSearch : OsState :=
  { mem := fun _ => 0, regA := 0, regB := 0, regC := 0, regD := 0,
    regE := 0x5c, regH := 0, regL := 0, terminate := false,
    term_reason := .OK_NOTRUN, current_drive := 0, current_dma := 0x80,
    read_only := fun _ => false, conf_drives := fun _ => true, files := [],
    file_id := 1, search_list := [], dont_close := false, host_writes := 0 }

/-- The `setup_fcb` oracle used at concrete inputs: a name's characters
as CP/M codes. -/
def encode0 (n : List Char) : List Nat := n.map Char.toNat

set_option maxRecDepth 4000 in
/-- C4 (counterexample).  The claim promises enumeration in directory
order, i.e. `a` before `b`; but the concrete search on `dirAB` delivers
`b` first: the first `Search First` call writes `b`'s directory entry
into the DMA buffer (byte `0x81` holds the code of `b`), and the full
delivery sequence is `[b, a]`, the reverse of the directory-order
survivor list `[a, b]`. -/
theorem search_order_cex :
    ((dirAB.filter (fun e => survives ['?'] e)).map (·.name)) =
      [['a'], ['b']] ∧
    (get_filelist dirAB ['?']).map (·.name) = [['b'], ['a']] ∧
    (bdos_search_for_first stSearch (fun _ => dirAB) (some ['?'])
      encode0).regA = 0 ∧
    (bdos_search_for_first stSearch (fun _ => dirAB) (some ['?'])
      encode0).mem (0x80 + 1) = Char.toNat 'b' ∧
    [[('b' : Char)], [('a' : Char)]] ≠ [[('a' : Char)], [('b' : Char)]] :=
  ⟨by decide, by decide, by decide, by decide, by decide⟩

set_option maxRecDepth 4000 in
/-- C4 (witness for the amended theorem): on `dirAB` the concrete
deliveries are `b` then `a`, exactly the survivor list of
`get_filelist`. -/
theorem search_enumerates_witness :
    (⟨['b'], 0⟩ : FileListEntry).name :: drain encode0 1
      (bdos_search_for_first stSearch (fun _ => dirAB) (some ['?'])
        encode0) =
      (get_filelist ((fun _ => dirAB) 0) ['?']).map (·.name) :=
  (search_enumerates.2 stSearch (fun _ => dirAB) ['?'] encode0 0 1
    (by decide)
    (Or.inr ⟨by decide, by decide, by decide, by decide⟩)).2.2.1
    ⟨['b'], 0⟩ [⟨['a'], 0⟩] (by decide) (by decide)

/-- C9.  A `Search First` whose FCB drive byte is `0x3F` (the `?`
wildcard) searches the current drive: the call does not fail on account
of the wildcard byte (no termination is requested, the search list and
return code are those of the current drive's scan), and its outcome is
the same as that of the identical call with the drive byte naming the
current drive explicitly (`current_drive + 1`). -/
theorem search_wildcard_drive (st : OsState) (dirOf : Nat → List DirEntry)
    (pattern : List Char) (encode : List Char → List Nat)
    (hb : get_de st + 32 ≤ MEMORY_SIZE)
    (hwc : st.mem (get_de st) = 0x3f)
    (hcur : st.current_drive ≤ 15)
    (hconf : st.conf_drives st.current_drive = true) :
    (bdos_search_for_first st dirOf (some pattern) encode).terminate =
      st.terminate ∧
    (bdos_search_for_first st dirOf (some pattern) encode).term_reason =
      st.term_reason ∧
    (bdos_search_for_first st dirOf (some pattern) encode).search_list =
      (get_filelist (dirOf st.current_drive) pattern).tail ∧
    (bdos_search_for_first st dirOf (some pattern) encode).regA =
      (if (get_filelist (dirOf st.current_drive) pattern).isEmpty
        then 0xff else 0) ∧
    (bdos_search_for_first st dirOf (some pattern) encode).search_list =
      (bdos_search_for_first
        { st with mem := memWrite st.mem (get_de st) (st.current_drive + 1) }
        dirOf (some pattern) encode).search_list ∧
    (bdos_search_for_first st dirOf (some pattern) encode).regA =
      (bdos_search_for_first
        { st with mem := memWrite st.mem (get_de st) (st.current_drive + 1) }
        dirOf (some pattern) encode).regA := by
  obtain ⟨hsl1, hra1, hterm1, hreason1⟩ :=
    search_first_spec st dirOf pattern encode st.current_drive hb
      (Or.inl ⟨hwc, rfl⟩)
  have hbyte : (st.current_drive + 1) % 256 = st.current_drive + 1 :=
    Nat.mod_eq_of_lt (by omega)
  obtain ⟨hsl2, hra2, hterm2, hreason2⟩ :=
    search_first_spec
      { st with mem := memWrite st.mem (get_de st) (st.current_drive + 1) }
      dirOf pattern encode st.current_drive
      (by simpa [get_de] using hb)
      (Or.inr ⟨by simp [get_de, memWrite, hbyte]; omega,
        by simp [get_de, resolve_drive, memWrite, hbyte],
        hcur, by simpa using hconf⟩)
  refine ⟨hterm1, hreason1, hsl1, hra1, ?_, ?_⟩
  · rw [hsl1, hsl2]
  · rw [hra1, hra2]

/-- A state for the C9 witness: the FCB drive byte at `0x5C` holds the
`?` wildcard `0x3F`. -/
def stWild : OsState :=
  { stSearch with mem := fun a => if a = 0x5c then 0x3f else 0 }

set_option maxRecDepth 4000 in
/-- C9 (witness): with the wildcard drive byte, the concrete search on
`dirAB` succeeds exactly like the explicit current-drive search. -/
theorem search_wildcard_drive_witness :
    (bdos_search_for_first stWild (fun _ => dirAB) (some ['?'])
      encode0).terminate = stWild.terminate ∧
    (bdos_search_for_first stWild (fun _ => dirAB) (some ['?'])
      encode0).term_reason = stWild.term_reason ∧
    (bdos_search_for_first stWild (fun _ => dirAB) (some ['?'])
      encode0).search_list =
      (get_filelist ((fun _ => dirAB) stWild.current_drive) ['?']).tail ∧
    (bdos_search_for_first stWild (fun _ => dirAB) (some ['?'])
      encode0).regA =
      (if (get_filelist ((fun _ => dirAB) stWild.current_drive)
        ['?']).isEmpty then 0xff else 0) ∧
    (bdos_search_for_first stWild (fun _ => dirAB) (some ['?'])
      encode0).search_list =
      (bdos_search_for_first
        { stWild with
            mem := memWrite stWild.mem (get_de stWild)
              (stWild.current_drive + 1) }
        (fun _ => dirAB) (some ['?']) encode0).search_list ∧
    (bdos_search_for_first stWild (fun _ => dirAB) (some ['?'])
      encode0).regA =
      (bdos_search_for_first
        { stWild with
            mem := memWrite stWild.mem (get_de stWild)
              (stWild.current_drive + 1) }
        (fun _ => dirAB) (some ['?']) encode0).regA :=
  search_wildcard_drive stWild (fun _ => dirAB) ['?'] encode0
    (by decide) (by decide) (by decide) (by decide)

/-- C10.  `Delete File` (BDOS 19) on a read-only drive: the match list
is collected *before* the write-protection check, so when no file
matches the FCB pattern the call returns `0xFF` and execution continues
(no termination is requested); the fatal `ERR_RODISK` termination
happens only when at least one file matches. -/
theorem delete_file_ro_drive (st : OsState) (dirOf : Nat → List DirEntry)
    (pattern : List Char) (unlinkFails : List Char → Bool)
    (hb : get_de st + 32 ≤ MEMORY_SIZE)
    (hd15 : resolve_drive st (get_de st) ≤ 15)
    (hconf : st.conf_drives (resolve_drive st (get_de st)) = true)
    (hro : st.read_only (resolve_drive st (get_de st)) = true) :
    (get_filelist (dirOf (resolve_drive st (get_de st))) pattern = [] →
      (bdos_delete_file st dirOf (some pattern) unlinkFails).regA = 0xff ∧
      (bdos_delete_file st dirOf (some pattern) unlinkFails).terminate =
        st.terminate ∧
      (bdos_delete_file st dirOf (some pattern) unlinkFails).term_reason =
        st.term_reason) ∧
    (get_filelist (dirOf (resolve_drive st (get_de st))) pattern ≠ [] →
      (bdos_delete_file st dirOf (some pattern) unlinkFails).terminate =
        true ∧
      (bdos_delete_file st dirOf (some pattern) unlinkFails).term_reason =
        .ERR_RODISK) := by
  unfold bdos_delete_file
  dsimp only
  rw [get_fcb_eq_ok _ 32 (by simp only [get_de] at hb ⊢; omega)]
  dsimp only
  rw [get_drive_eq_ok { st with regA := 0xff }
    (get_de { st with regA := 0xff }) hd15 hconf]
  dsimp only
  constructor
  · intro hemp
    rw [if_pos (by simpa [get_de] using hemp)]
    exact ⟨rfl, rfl, rfl⟩
  · intro hne
    rw [if_neg (by simpa [get_de] using hne),
      if_pos (by simpa [get_de, resolve_drive] using hro)]
    exact ⟨rfl, rfl⟩

/-- A read-only drive A with matching directory `dirAB` and a state
whose FCB pattern matches nothing (`pattern = ['c']`) or something
(`pattern = ['?']`). -/
def stRo : OsState :=
  { stSearch with read_only := fun _ => true }

set_option maxRecDepth 4000 in
/-- C10 (witness): on the read-only drive, deleting with a pattern that
matches nothing returns `0xFF` without termination, and deleting with a
matching pattern terminates with `ERR_RODISK`. -/
theorem delete_file_ro_drive_witness :
    ((bdos_delete_file stRo (fun _ => dirAB) (some ['c'])
        (fun _ => false)).regA = 0xff ∧
      (bdos_delete_file stRo (fun _ => dirAB) (some ['c'])
        (fun _ => false)).terminate = stRo.terminate ∧
      (bdos_delete_file stRo (fun _ => dirAB) (some ['c'])
        (fun _ => false)).term_reason = stRo.term_reason) ∧
    ((bdos_delete_file stRo (fun _ => dirAB) (some ['?'])
        (fun _ => false)).terminate = true ∧
      (bdos_delete_file stRo (fun _ => dirAB) (some ['?'])
        (fun _ => false)).term_reason = .ERR_RODISK) :=
  ⟨(delete_file_ro_drive stRo (fun _ => dirAB) ['c'] (fun _ => false)
      (by decide) (by decide) (by decide) (by decide)).1 (by decide),
    (delete_file_ro_drive stRo (fun _ => dirAB) ['?'] (fun _ => false)
      (by decide) (by decide) (by decide) (by decide)).2 (by decide)⟩

/-- C5 (counterexample).  The claim promises host exit code 0 on any
normal termination (`OK_NOTRUN`/`OK_TERM`/`OK_CTRLC`); but a run that
terminates normally via BDOS 0 after the guest set a program return code
of `0xFF00` (BDOS 108) exits with code 1: `os_exit` returns `-1`, so
`cpu_exit` and `main` report failure. -/
theorem host_exit_code_cex :
    main_exit_code .OK_TERM 0xff00 false false false false false false
      false false false false false false false = 1 := by
  decide

theorem cpu_exit_rc_fatal (reason : Reason) (prc : Nat) (sc sf : Bool)
    (h : Reason.OK_CTRLC.idx < reason.idx) :
    cpu_exit_rc reason prc sc sf = -1 := by
  unfold cpu_exit_rc
  dsimp only
  rw [if_neg (by omega)]

theorem cpu_exit_rc_normal (reason : Reason) (prc : Nat) (sc sf : Bool)
    (h1 : reason.idx ≤ Reason.OK_CTRLC.idx) (h2 : prc < 0xff00)
    (h3 : sc = false ∨ sf = false) :
    cpu_exit_rc reason prc sc sf = 0 := by
  unfold cpu_exit_rc os_exit_rc
  dsimp only
  rw [if_pos h1]
  rcases h3 with h3 | h3 <;> subst h3
  · simp
    omega
  · cases sc <;> simp <;> omega

/-- C5 (amended).  The host process exit code is 1 whenever `term_reason`
is a fatal reason of §7, provided the run was attempted at all (neither
the `-h` usage path nor a configuration error diverted `main` before the
emulation with `rc` still `0`; a fatal `term_reason` entails that).  It
is 0 on normal termination (`OK_NOTRUN`, `OK_TERM`, `OK_CTRLC`, which
includes `^C`) only *provided* the guest's program return code is below
`0xFF00`, every pre-run step succeeds (`setlocale`, not running as root,
configuration, log open, `cpu_init`, `console_init`) and the host-side
cleanup succeeds (optional memory save, console restore, character
devices, log close); a pre-run failure exits 1 even with `term_reason`
still `OK_NOTRUN`. -/
theorem host_exit_code (reason : Reason) (prc : Nat)
    (slf ho er cgf lc lof cif cnf sc sf cef cf lcf : Bool) :
    (Reason.OK_CTRLC.idx < reason.idx → ho = false → cgf = false →
      main_exit_code reason prc slf ho er cgf lc lof cif cnf
        sc sf cef cf lcf = 1) ∧
    (reason.idx ≤ Reason.OK_CTRLC.idx → prc < 0xff00 →
      (sc = false ∨ sf = false) →
      slf = false → ho = false → er = false → cgf = false → lof = false →
      cif = false → cnf = false → cef = false → cf = false → lcf = false →
      main_exit_code reason prc slf ho er cgf lc lof cif cnf
        sc sf cef cf lcf = 0) := by
  constructor
  · intro h hho hcgf
    subst hho; subst hcgf
    unfold main_exit_code
    simp only [cpu_exit_rc_fatal reason prc sc sf h]
    cases slf <;> cases er <;> cases lc <;> cases lof <;> cases cif <;>
      cases cnf <;> cases cef <;> cases cf <;> cases lcf <;> decide
  · intro h1 h2 h3 e1 e2 e3 e4 e5 e6 e7 e8 e9 e10
    subst e1; subst e2; subst e3; subst e4; subst e5
    subst e6; subst e7; subst e8; subst e9; subst e10
    unfold main_exit_code
    simp only [cpu_exit_rc_normal reason prc sc sf h1 h2 h3]
    cases lc <;> decide

/-- C5 (witness): a fatal `ERR_LOGIC` run (all pre-run steps and cleanup
succeeding) exits 1; a clean `OK_TERM` run with return code 0 exits 0. -/
theorem host_exit_code_witness :
    main_exit_code .ERR_LOGIC 0 false false false false false false
      false false false false false false false = 1 ∧
    main_exit_code .OK_TERM 0 false false false false false false
      false false false false false false false = 0 :=
  ⟨(host_exit_code .ERR_LOGIC 0 false false false false false false
      false false false false false false false).1 (by decide) rfl rfl,
    (host_exit_code .OK_TERM 0 false false false false false false
      false false false false false false false).2 (by decide)
      (by decide) (Or.inl rfl) rfl rfl rfl rfl rfl rfl rfl rfl rfl rfl⟩

/-- A register file with distinctive values in L, B and H. -/
def stRegs : OsState :=
  { stSearch with regL := 0x55, regB := 7, regH := 9, regC := 3 }

/-- C6 (counterexample).  The claim asserts that after *every* BDOS or
BIOS trap handler, `A = L` (with `B = H = 0` for byte results); but the
BIOS CONIN handler assigns only A (`reg_a = console_in()`), leaving L, B
and H as the guest had them: after `magic_conin` delivering byte 0,
`A = 0` while `L = 0x55`, `B = 7`, `H = 9`. -/
theorem trap_register_convention_cex :
    (magic_conin stRegs 0).regA = 0 ∧
    (magic_conin stRegs 0).regL = 0x55 ∧
    (magic_conin stRegs 0).regA ≠ (magic_conin stRegs 0).regL ∧
    (magic_conin stRegs 0).regB = 7 ∧
    (magic_conin stRegs 0).regH = 9 :=
  ⟨rfl, rfl, by decide, rfl, rfl⟩

/-- C6 (amended).  The BDOS function handlers maintain the calling
convention `A = L` (byte results additionally `B = H = 0`), as
`bdos_return_version_number` shows; the BIOS trap handlers instead set
only the registers that carry their result: CONIN writes the input byte
to A alone (L, B, H untouched), and SECTRAN copies BC to HL (so `H = B`
but A is untouched and in general `A ≠ L`). -/
theorem trap_register_convention (st : OsState) (c : Nat) :
    ((bdos_return_version_number st).regA = 0x22 ∧
      (bdos_return_version_number st).regL = 0x22 ∧
      (bdos_return_version_number st).regB = 0 ∧
      (bdos_return_version_number st).regH = 0) ∧
    ((magic_conin st c).regA = c % 256 ∧
      (magic_conin st c).regL = st.regL ∧
      (magic_conin st c).regB = st.regB ∧
      (magic_conin st c).regH = st.regH) ∧
    ((magic_sectran st).regL = st.regC ∧
      (magic_sectran st).regH = st.regB ∧
      (magic_sectran st).regA = st.regA) :=
  ⟨⟨rfl, rfl, rfl, rfl⟩, ⟨rfl, rfl, rfl, rfl⟩, ⟨rfl, rfl, rfl⟩⟩

end Tnylpo
